import Mathlib

/-!
Verification of the resumable chunked CSV bulk-import subsystem
(`backend/app/services/csv_chunk_manager.py` and
`backend/app/services/data_importer.py`).

The Python services are shallowly embedded as executable Lean functions:

* the target database table is an association list of row dictionaries,
  keyed by the `id` column (`Table`, `insertSkip`, `insertRows` model the
  `INSERT ... ON CONFLICT (id) DO NOTHING` statements);
* `CSVChunkProgress` ORM records become the `ChunkRecord` structure, with
  nullable columns as `Option` and timestamps as abstract `Nat` ticks;
* the chunk splitter, progress summary, reset, the three importer variants
  and the chunked-import orchestrator are translated loop by loop, with the
  database session's commit/rollback pair modelled as an explicit
  (committed, current) table pair and external failures (missing chunk
  files, batch insert errors) supplied as boolean/`Except` oracles.
-/

namespace Caselaw

/-- A CSV field value after the importer's per-field conversion
(`import_csv`, data_importer.py lines 324-333): empty string becomes SQL
NULL, `t`/`f` in a declared boolean column becomes a boolean, the literal
`0` in a declared date column becomes NULL, anything else stays text. -/
inductive Value where
  | null : Value
  | str : String → Value
  | boolean : Bool → Value
deriving DecidableEq, Repr

/-- One row dictionary bound for the target table: association list from
column name to converted value (Python `row_dict`). -/
abbrev Row : Type := List (String × Value)

/-- The target database table, as the list of its rows. -/
abbrev Table : Type := List Row

/-- The value of a row's `id` column, if the row has one (the primary-key
column used as the conflict target of `ON CONFLICT (id) DO NOTHING`). -/
def rowId (r : Row) : Option Value :=
  (List.find? (fun p => p.1 == "id") r).map (·.2)

/-- `INSERT ... ON CONFLICT (id) DO NOTHING` for a single row: if some row
already in the table has the same (non-null) `id`, the insert is a no-op;
otherwise the row is appended.  A row carrying no `id` value never
conflicts (SQL NULLs compare unequal), so it is appended. -/
def insertSkip (t : Table) (r : Row) : Table :=
  match rowId r with
  | none => t ++ [r]
  | some v => if List.any t (fun r2 => rowId r2 == some v) then t else t ++ [r]

/-- One multi-row `INSERT ... ON CONFLICT (id) DO NOTHING` batch: the rows
are inserted in order, each skipped when its `id` already exists. -/
def insertRows (t : Table) (rs : List Row) : Table :=
  rs.foldl insertSkip t

theorem insertRows_append (t : Table) (a b : List Row) :
    insertRows t (a ++ b) = insertRows (insertRows t a) b := by
  simp [insertRows, List.foldl_append]

theorem insertRows_nil (t : Table) : insertRows t [] = t := rfl

/-- `insertSkip` only ever appends, so any row-level predicate that held of
some member still holds of some member afterwards. -/
theorem any_insertSkip_of_any (t : Table) (r : Row) (p : Row → Bool)
    (h : List.any t p = true) : List.any (insertSkip t r) p = true := by
  unfold insertSkip
  cases rowId r with
  | none => simp [h]
  | some v =>
    by_cases hc : List.any t (fun r2 => rowId r2 == some v) = true
    · simp [hc, h]
    · simp [hc, h]

/-- After inserting a row that has an `id`, some member of the table has
that `id` (either it was already there and the insert skipped, or the row
itself was appended). -/
theorem any_id_insertSkip (t : Table) (r : Row) (v : Value)
    (h : rowId r = some v) :
    List.any (insertSkip t r) (fun r2 => rowId r2 == some v) = true := by
  unfold insertSkip
  rw [h]
  by_cases hc : List.any t (fun r2 => rowId r2 == some v) = true
  · simp [hc]
  · simp [hc, h]

theorem any_insertRows_of_any (t : Table) (rs : List Row) (p : Row → Bool)
    (h : List.any t p = true) : List.any (insertRows t rs) p = true := by
  induction rs generalizing t with
  | nil => simpa [insertRows] using h
  | cons r rest ih =>
    exact ih (insertSkip t r) (any_insertSkip_of_any t r p h)

/-- Every row of the batch with an `id` has a representative of that `id`
in the table after the batch insert. -/
theorem any_id_insertRows (t : Table) (rs : List Row) (r : Row) (v : Value)
    (hid : rowId r = some v) (hmem : r ∈ rs) :
    List.any (insertRows t rs) (fun r2 => rowId r2 == some v) = true := by
  revert hmem
  induction rs generalizing t with
  | nil => intro hmem; cases hmem
  | cons a rest ih =>
    intro hmem
    rcases List.mem_cons.mp hmem with heq | hmem2
    · subst heq
      exact any_insertRows_of_any (insertSkip t r) rest _
        (any_id_insertSkip t r v hid)
    · exact ih (insertSkip t a) hmem2

/-- Inserting a batch whose every `id` is already represented in the table
changes nothing. -/
theorem insertRows_eq_self (t : Table) (rs : List Row)
    (h : ∀ r ∈ rs, ∃ v, rowId r = some v ∧
      List.any t (fun r2 => rowId r2 == some v) = true) :
    insertRows t rs = t := by
  induction rs with
  | nil => rfl
  | cons a rest ih =>
    obtain ⟨v, hv, hany⟩ := h a (List.mem_cons_self a rest)
    have hstep : insertSkip t a = t := by
      simp [insertSkip, hv, hany]
    calc insertRows t (a :: rest)
        = insertRows (insertSkip t a) rest := rfl
      _ = insertRows t rest := by rw [hstep]
      _ = t := ih (fun r hr => h r (List.mem_cons_of_mem a hr))

/-! ## Progress ledger data model (`app/models/csv_chunk_progress.py`)

One `CSVChunkProgress` row, restricted to one `(table_name, dataset_date)`
group (the two key columns are therefore not repeated in every record).
Nullable columns are `Option`; the two timestamp columns are abstract
clock ticks (`Nat`).  `chunk_start_row`, `chunk_end_row` and
`chunk_row_count` are nullable in the schema but always populated by the
splitter, so they are plain `Nat` here. -/
structure ChunkRecord where
  chunk_number : Nat
  chunk_filename : String
  chunk_start_row : Nat
  chunk_end_row : Nat
  chunk_row_count : Nat
  status : String
  rows_imported : Option Nat
  rows_skipped : Option Nat
  started_at : Option Nat
  completed_at : Option Nat
  duration_seconds : Option Nat
  error_message : Option String
  retry_count : Nat
  import_method : Option String
deriving DecidableEq, Repr

/-- The summary dictionary built by `get_progress_summary`
(csv_chunk_manager.py lines 313-356). -/
structure ProgressSummary where
  total_chunks : Nat
  completed_chunks : Nat
  failed_chunks : Nat
  processing_chunks : Nat
  pending_chunks : Nat
  total_rows : Nat
  imported_rows : Nat
  skipped_rows : Nat
  progress_percentage_num : Nat
  status : String
deriving DecidableEq, Repr

/-- `sum(1 for c in chunks if c.status == s)`. -/
def countStatus (chunks : List ChunkRecord) (s : String) : Nat :=
  (chunks.filter (fun c => c.status == s)).length

/-- `CSVChunkManager.get_progress_summary` (csv_chunk_manager.py lines
282-356), for the chunk records of one `(table_name, dataset_date)`.  The
empty-ledger early return (`status = "not_started"`) is modelled with all
counters zero.  `progress_percentage` is kept as its numerator
`completed * 100` over `total_chunks` to stay in exact arithmetic. -/
def get_progress_summary (chunks : List ChunkRecord) : ProgressSummary :=
  if chunks.isEmpty then
    { total_chunks := 0, completed_chunks := 0, failed_chunks := 0
      processing_chunks := 0, pending_chunks := 0, total_rows := 0
      imported_rows := 0, skipped_rows := 0, progress_percentage_num := 0
      status := "not_started" }
  else
    let total_chunks := chunks.length
    let completed := countStatus chunks "completed"
    let failed := countStatus chunks "failed"
    let processing := countStatus chunks "processing"
    let pending := countStatus chunks "pending"
    let total_rows := (chunks.map (fun c => c.chunk_row_count)).sum
    let imported_rows := (chunks.map (fun c => c.rows_imported.getD 0)).sum
    let skipped_rows := (chunks.map (fun c => c.rows_skipped.getD 0)).sum
    let overall_status :=
      if completed == total_chunks then "completed"
      else if failed > 0 then "failed"
      else if processing > 0 then "processing"
      else if pending > 0 && completed > 0 then "in_progress"
      else "pending"
    { total_chunks := total_chunks, completed_chunks := completed
      failed_chunks := failed, processing_chunks := processing
      pending_chunks := pending, total_rows := total_rows
      imported_rows := imported_rows, skipped_rows := skipped_rows
      progress_percentage_num := completed * 100
      status := overall_status }

/-- The per-record mutation of `CSVChunkManager.reset_chunks`
(csv_chunk_manager.py lines 580-588). -/
def resetRecord (c : ChunkRecord) : ChunkRecord :=
  { c with status := "pending", started_at := none, completed_at := none
           duration_seconds := none, rows_imported := some 0
           rows_skipped := some 0, error_message := none, retry_count := 0 }

/-- `CSVChunkManager.reset_chunks` (csv_chunk_manager.py lines 549-597)
over the chunk records of one `(table_name, dataset_date)`: every matching
record is reset and the number of matching records is returned. -/
def reset_chunks (chunks : List ChunkRecord) : List ChunkRecord × Nat :=
  (chunks.map resetRecord, chunks.length)

/-! ## Chunk splitter (`CSVChunkManager.chunk_csv`, lines 48-206) -/

/-- The metadata recorded for one written chunk: the fields passed to
`_write_chunk` and `_create_chunk_progress_record` (chunk number,
1-based start/end offsets into the source file's data rows, row count)
together with the rows written to the chunk file. -/
structure ChunkMeta where
  chunk_number : Nat
  start_row : Nat
  end_row : Nat
  row_count : Nat
  rows : List (List String)
deriving DecidableEq, Repr

/-- The row loop of `chunk_csv` (csv_chunk_manager.py lines 104-166).
State: rows not yet consumed, the accumulator `current_chunk_rows`, the
running `total_rows` counter and the running `chunk_num`.  A chunk is
flushed as soon as the accumulator reaches `chunk_size`
(`len(current_chunk_rows) >= chunk_size`), with
`start_row = total_rows - len(current_chunk_rows) + 1` and
`end_row = total_rows`; the final partial accumulation is flushed as the
last chunk. -/
def chunkLoop (chunk_size : Nat) :
    List (List String) → List (List String) → Nat → Nat → List ChunkMeta
  | [], acc, total_rows, chunk_num =>
      if acc.isEmpty then []
      else [{ chunk_number := chunk_num + 1
              start_row := total_rows - acc.length + 1
              end_row := total_rows
              row_count := acc.length
              rows := acc }]
  | row :: rest, acc, total_rows, chunk_num =>
      let acc2 := acc ++ [row]
      let total2 := total_rows + 1
      if chunk_size ≤ acc2.length then
        { chunk_number := chunk_num + 1
          start_row := total2 - acc2.length + 1
          end_row := total2
          row_count := acc2.length
          rows := acc2 } :: chunkLoop chunk_size rest [] total2 (chunk_num + 1)
      else
        chunkLoop chunk_size rest acc2 total2 chunk_num

/-- `CSVChunkManager.chunk_csv` over the source file's data rows (the
header has already been consumed by `next(csv_reader)`). -/
def chunk_csv (dataRows : List (List String)) (chunk_size : Nat) : List ChunkMeta :=
  chunkLoop chunk_size dataRows [] 0 0

/-- Row-range bookkeeping invariant of a chunk list: starting at chunk
number `chunk_num + 1` and data row `start_row`, the chunks carry dense
consecutive numbers and contiguous row ranges that end exactly at
`last_row`, every chunk holds between 1 and `chunk_size` rows, and every
chunk except the last holds exactly `chunk_size` rows. -/
def coversFrom (chunk_size : Nat) : Nat → Nat → Nat → List ChunkMeta → Prop
  | _, start_row, last_row, [] => start_row = last_row + 1
  | chunk_num, start_row, last_row, c :: rest =>
      c.chunk_number = chunk_num + 1 ∧
      c.start_row = start_row ∧
      c.end_row + 1 = start_row + c.row_count ∧
      1 ≤ c.row_count ∧ c.row_count ≤ chunk_size ∧
      (rest = [] → c.end_row = last_row) ∧
      (rest ≠ [] → c.row_count = chunk_size) ∧
      coversFrom chunk_size (chunk_num + 1) (start_row + c.row_count) last_row rest

theorem coversFrom_nil (chunk_size chunk_num start_row last_row : Nat) :
    coversFrom chunk_size chunk_num start_row last_row []
      = (start_row = last_row + 1) := rfl

theorem coversFrom_cons (chunk_size chunk_num start_row last_row : Nat)
    (c : ChunkMeta) (rest : List ChunkMeta) :
    coversFrom chunk_size chunk_num start_row last_row (c :: rest)
      = (c.chunk_number = chunk_num + 1 ∧
         c.start_row = start_row ∧
         c.end_row + 1 = start_row + c.row_count ∧
         1 ≤ c.row_count ∧ c.row_count ≤ chunk_size ∧
         (rest = [] → c.end_row = last_row) ∧
         (rest ≠ [] → c.row_count = chunk_size) ∧
         coversFrom chunk_size (chunk_num + 1) (start_row + c.row_count)
           last_row rest) := rfl

theorem chunkLoop_covers (chunk_size : Nat) (hcs : 1 ≤ chunk_size) :
    ∀ (rest : List (List String)) (acc : List (List String))
      (total_rows chunk_num : Nat),
      acc.length < chunk_size → acc.length ≤ total_rows →
      coversFrom chunk_size chunk_num (total_rows - acc.length + 1)
        (total_rows + rest.length)
        (chunkLoop chunk_size rest acc total_rows chunk_num) := by
  intro rest
  induction rest with
  | nil =>
    intro acc total_rows chunk_num hlt hle
    by_cases hacc : acc.isEmpty
    · have h0 : acc.length = 0 := by
        simpa [List.isEmpty_iff_length_eq_zero] using hacc
      simp [chunkLoop, hacc, coversFrom_nil, h0]
    · have hpos : 1 ≤ acc.length := by
        rcases Nat.eq_zero_or_pos acc.length with h0 | h1
        · exact absurd (by simpa [List.isEmpty_iff_length_eq_zero] using h0) hacc
        · exact h1
      simp only [chunkLoop, hacc, Bool.false_eq_true, if_false, List.length_nil,
        Nat.add_zero]
      rw [coversFrom_cons]
      refine ⟨rfl, rfl, ?_, ?_, ?_, fun _ => rfl, fun hne => absurd rfl hne, ?_⟩
      · show total_rows + 1 = total_rows - acc.length + 1 + acc.length
        omega
      · exact hpos
      · exact Nat.le_of_lt hlt
      · rw [coversFrom_nil]
        show total_rows - acc.length + 1 + acc.length = total_rows + 1
        omega
  | cons row rest2 ih =>
    intro acc total_rows chunk_num hlt hle
    have hlen : (acc ++ [row]).length = acc.length + 1 := by simp
    by_cases hflush : chunk_size ≤ (acc ++ [row]).length
    · simp only [chunkLoop]
      rw [if_pos hflush]
      have ihz := ih [] (total_rows + 1) (chunk_num + 1) hcs (Nat.zero_le _)
      simp only [List.length_nil, Nat.sub_zero] at ihz
      rw [hlen] at hflush
      rw [coversFrom_cons]
      refine ⟨rfl, ?_, ?_, ?_, ?_, ?_, ?_, ?_⟩
      · show total_rows + 1 - (acc ++ [row]).length + 1 = total_rows - acc.length + 1
        rw [hlen]
        omega
      · show total_rows + 1 + 1 = total_rows - acc.length + 1 + (acc ++ [row]).length
        rw [hlen]
        omega
      · show 1 ≤ (acc ++ [row]).length
        rw [hlen]
        omega
      · show (acc ++ [row]).length ≤ chunk_size
        rw [hlen]
        omega
      · intro hnil
        rw [hnil, coversFrom_nil] at ihz
        show total_rows + 1 = total_rows + (row :: rest2).length
        simp only [List.length_cons]
        omega
      · intro _
        show (acc ++ [row]).length = chunk_size
        rw [hlen]
        omega
      · show coversFrom chunk_size (chunk_num + 1)
          (total_rows - acc.length + 1 + (acc ++ [row]).length)
          (total_rows + (row :: rest2).length)
          (chunkLoop chunk_size rest2 [] (total_rows + 1) (chunk_num + 1))
        have e1 : total_rows - acc.length + 1 + (acc ++ [row]).length
            = total_rows + 1 + 1 := by
          rw [hlen]
          omega
        have e2 : total_rows + (row :: rest2).length
            = total_rows + 1 + rest2.length := by
          simp only [List.length_cons]
          omega
        rw [e1, e2]
        exact ihz
    · simp only [chunkLoop]
      rw [if_neg hflush]
      have hlt2 : (acc ++ [row]).length < chunk_size := Nat.lt_of_not_le hflush
      have hle2 : (acc ++ [row]).length ≤ total_rows + 1 := by
        simp only [hlen]
        omega
      have ihx := ih (acc ++ [row]) (total_rows + 1) chunk_num hlt2 hle2
      have heq1 : total_rows + 1 - (acc ++ [row]).length + 1
          = total_rows - acc.length + 1 := by
        simp only [hlen]
        omega
      have heq2 : total_rows + 1 + rest2.length
          = total_rows + (row :: rest2).length := by
        simp only [List.length_cons]
        omega
      rw [heq1, heq2] at ihx
      exact ihx

theorem coversFrom_map_number (chunk_size : Nat) :
    ∀ (cs : List ChunkMeta) (chunk_num start_row last_row : Nat),
      coversFrom chunk_size chunk_num start_row last_row cs →
      cs.map (fun c => c.chunk_number) = List.range' (chunk_num + 1) cs.length := by
  intro cs
  induction cs with
  | nil => intro _ _ _ _; rfl
  | cons c rest ih =>
    intro chunk_num start_row last_row h
    rw [coversFrom_cons] at h
    obtain ⟨h1, _, _, _, _, _, _, h8⟩ := h
    have := ih (chunk_num + 1) (start_row + c.row_count) last_row h8
    simp only [List.map_cons, List.length_cons, List.range'_succ, h1, this]

theorem coversFrom_sum (chunk_size : Nat) :
    ∀ (cs : List ChunkMeta) (chunk_num start_row last_row : Nat),
      coversFrom chunk_size chunk_num start_row last_row cs →
      (cs.map (fun c => c.row_count)).sum + start_row = last_row + 1 := by
  intro cs
  induction cs with
  | nil =>
    intro _ _ _ h
    rw [coversFrom_nil] at h
    simpa using h
  | cons c rest ih =>
    intro chunk_num start_row last_row h
    rw [coversFrom_cons] at h
    obtain ⟨_, _, _, _, _, _, _, h8⟩ := h
    have := ih (chunk_num + 1) (start_row + c.row_count) last_row h8
    simp only [List.map_cons, List.sum_cons]
    omega

theorem coversFrom_mem (chunk_size : Nat) :
    ∀ (cs : List ChunkMeta) (chunk_num start_row last_row : Nat),
      coversFrom chunk_size chunk_num start_row last_row cs →
      ∀ c ∈ cs, c.end_row + 1 = c.start_row + c.row_count ∧
        1 ≤ c.row_count ∧ c.row_count ≤ chunk_size := by
  intro cs
  induction cs with
  | nil => intro _ _ _ _ c hc; cases hc
  | cons a rest ih =>
    intro chunk_num start_row last_row h c hc
    rw [coversFrom_cons] at h
    obtain ⟨_, h2, h3, h4, h5, _, _, h8⟩ := h
    rcases List.mem_cons.mp hc with heq | hmem
    · subst heq
      exact ⟨by omega, h4, h5⟩
    · exact ih (chunk_num + 1) (start_row + a.row_count) last_row h8 c hmem

theorem coversFrom_start_le (chunk_size : Nat) :
    ∀ (cs : List ChunkMeta) (chunk_num start_row last_row : Nat),
      coversFrom chunk_size chunk_num start_row last_row cs →
      ∀ c ∈ cs, start_row ≤ c.start_row := by
  intro cs
  induction cs with
  | nil => intro _ _ _ _ c hc; cases hc
  | cons a rest ih =>
    intro chunk_num start_row last_row h c hc
    rw [coversFrom_cons] at h
    obtain ⟨_, h2, _, _, _, _, _, h8⟩ := h
    rcases List.mem_cons.mp hc with heq | hmem
    · subst heq
      omega
    · have := ih (chunk_num + 1) (start_row + a.row_count) last_row h8 c hmem
      omega

theorem coversFrom_pairwise (chunk_size : Nat) :
    ∀ (cs : List ChunkMeta) (chunk_num start_row last_row : Nat),
      coversFrom chunk_size chunk_num start_row last_row cs →
      List.Pairwise (fun a b => a.end_row < b.start_row) cs := by
  intro cs
  induction cs with
  | nil => intro _ _ _ _; exact List.Pairwise.nil
  | cons a rest ih =>
    intro chunk_num start_row last_row h
    rw [coversFrom_cons] at h
    obtain ⟨_, h2, h3, _, _, _, _, h8⟩ := h
    refine List.Pairwise.cons ?_ (ih (chunk_num + 1) (start_row + a.row_count) last_row h8)
    intro b hb
    have := coversFrom_start_le chunk_size rest (chunk_num + 1)
      (start_row + a.row_count) last_row h8 b hb
    omega

theorem coversFrom_chain (chunk_size : Nat) :
    ∀ (cs : List ChunkMeta) (chunk_num start_row last_row : Nat),
      coversFrom chunk_size chunk_num start_row last_row cs →
      List.Chain' (fun a b => b.start_row = a.end_row + 1) cs := by
  intro cs
  induction cs with
  | nil => intro _ _ _ _; exact List.chain'_nil
  | cons a rest ih =>
    intro chunk_num start_row last_row h
    rw [coversFrom_cons] at h
    obtain ⟨_, h2, h3, _, _, _, _, h8⟩ := h
    cases rest with
    | nil => exact List.chain'_singleton a
    | cons b rest2 =>
      have hrec := ih (chunk_num + 1) (start_row + a.row_count) last_row h8
      have hb : b.start_row = start_row + a.row_count := by
        rw [coversFrom_cons] at h8
        exact h8.2.1
      exact List.Chain'.cons (by omega) hrec

theorem coversFrom_cover (chunk_size : Nat) :
    ∀ (cs : List ChunkMeta) (chunk_num start_row last_row : Nat),
      coversFrom chunk_size chunk_num start_row last_row cs →
      ∀ r, start_row ≤ r → r ≤ last_row →
        ∃ c ∈ cs, c.start_row ≤ r ∧ r ≤ c.end_row := by
  intro cs
  induction cs with
  | nil =>
    intro _ _ _ h r hr1 hr2
    rw [coversFrom_nil] at h
    omega
  | cons a rest ih =>
    intro chunk_num start_row last_row h r hr1 hr2
    rw [coversFrom_cons] at h
    obtain ⟨_, h2, h3, _, _, _, _, h8⟩ := h
    by_cases hcase : r ≤ a.end_row
    · exact ⟨a, List.mem_cons_self a rest, by omega, hcase⟩
    · obtain ⟨c, hc, hc1, hc2⟩ :=
        ih (chunk_num + 1) (start_row + a.row_count) last_row h8 r (by omega) hr2
      exact ⟨c, List.mem_cons_of_mem a hc, hc1, hc2⟩

theorem coversFrom_cover_conv (chunk_size : Nat) :
    ∀ (cs : List ChunkMeta) (chunk_num start_row last_row : Nat),
      coversFrom chunk_size chunk_num start_row last_row cs →
      ∀ c ∈ cs, ∀ r, c.start_row ≤ r → r ≤ c.end_row →
        start_row ≤ r ∧ r ≤ last_row := by
  intro cs
  induction cs with
  | nil => intro _ _ _ _ c hc; cases hc
  | cons a rest ih =>
    intro chunk_num start_row last_row h c hc r hr1 hr2
    have hsum := coversFrom_sum chunk_size (a :: rest) chunk_num start_row last_row h
    rw [coversFrom_cons] at h
    obtain ⟨_, h2, h3, _, _, _, _, h8⟩ := h
    rcases List.mem_cons.mp hc with heq | hmem
    · subst heq
      simp only [List.map_cons, List.sum_cons] at hsum
      omega
    · have := ih (chunk_num + 1) (start_row + a.row_count) last_row h8 c hmem r hr1 hr2
      omega

theorem coversFrom_dropLast (chunk_size : Nat) :
    ∀ (cs : List ChunkMeta) (chunk_num start_row last_row : Nat),
      coversFrom chunk_size chunk_num start_row last_row cs →
      ∀ c ∈ cs.dropLast, c.row_count = chunk_size := by
  intro cs
  induction cs with
  | nil => intro _ _ _ _ c hc; cases hc
  | cons a rest ih =>
    intro chunk_num start_row last_row h c hc
    rw [coversFrom_cons] at h
    obtain ⟨_, _, _, _, _, _, h7, h8⟩ := h
    cases rest with
    | nil => cases hc
    | cons b rest2 =>
      rw [List.dropLast_cons₂] at hc
      rcases List.mem_cons.mp hc with heq | hmem
      · subst heq
        exact h7 (by simp)
      · exact ih (chunk_num + 1) (start_row + a.row_count) last_row h8 c hmem

theorem chunkLoop_join (chunk_size : Nat) :
    ∀ (rest acc : List (List String)) (total_rows chunk_num : Nat),
      ((chunkLoop chunk_size rest acc total_rows chunk_num).map
        (fun c => c.rows)).flatten = acc ++ rest := by
  intro rest
  induction rest with
  | nil =>
    intro acc total_rows chunk_num
    by_cases hacc : acc.isEmpty
    · have h0 : acc = [] := List.isEmpty_iff.mp hacc
      simp [chunkLoop, hacc, h0]
    · simp [chunkLoop, hacc]
  | cons row rest2 ih =>
    intro acc total_rows chunk_num
    by_cases hflush : chunk_size ≤ (acc ++ [row]).length
    · simp only [chunkLoop]
      rw [if_pos hflush]
      simp only [List.map_cons, List.flatten_cons]
      rw [ih [] (total_rows + 1) (chunk_num + 1)]
      simp
    · simp only [chunkLoop]
      rw [if_neg hflush]
      rw [ih (acc ++ [row]) (total_rows + 1) chunk_num]
      simp

theorem chunkLoop_rows_len (chunk_size : Nat) :
    ∀ (rest acc : List (List String)) (total_rows chunk_num : Nat),
      ∀ c ∈ chunkLoop chunk_size rest acc total_rows chunk_num,
        c.rows.length = c.row_count := by
  intro rest
  induction rest with
  | nil =>
    intro acc total_rows chunk_num c hc
    by_cases hacc : acc.isEmpty
    · simp [chunkLoop, hacc] at hc
    · simp only [chunkLoop, hacc, Bool.false_eq_true, if_false] at hc
      rcases List.mem_singleton.mp hc with heq
      subst heq
      rfl
  | cons row rest2 ih =>
    intro acc total_rows chunk_num c hc
    by_cases hflush : chunk_size ≤ (acc ++ [row]).length
    · simp only [chunkLoop] at hc
      rw [if_pos hflush] at hc
      rcases List.mem_cons.mp hc with heq | hmem
      · subst heq
        rfl
      · exact ih [] (total_rows + 1) (chunk_num + 1) c hmem
    · simp only [chunkLoop] at hc
      rw [if_neg hflush] at hc
      exact ih (acc ++ [row]) (total_rows + 1) chunk_num c hc

/-- `chunk_csv` satisfies the row-range invariant starting at chunk number
1 and data row 1, covering exactly the source file's data rows. -/
theorem chunk_csv_covers (dataRows : List (List String)) (chunk_size : Nat)
    (hcs : 1 ≤ chunk_size) :
    coversFrom chunk_size 0 1 dataRows.length
      (chunk_csv dataRows chunk_size) := by
  have h := chunkLoop_covers chunk_size hcs dataRows [] 0 0 hcs (Nat.le_refl 0)
  simpa [chunk_csv] using h

/-- The row-range specification of a split: dense 1-based chunk numbers,
1-based contiguous non-overlapping row ranges covering all `n` data rows,
row counts summing to `n`, every chunk before the last exactly full, and
chunk file contents matching the metadata. -/
def chunkRangeSpec (chunk_size n : Nat) (cs : List ChunkMeta)
    (dataRows : List (List String)) : Prop :=
  cs.map (fun c => c.chunk_number) = List.range' 1 cs.length ∧
  (cs.map (fun c => c.row_count)).sum = n ∧
  (∀ c ∈ cs, c.end_row + 1 = c.start_row + c.row_count ∧
    1 ≤ c.row_count ∧ c.row_count ≤ chunk_size) ∧
  List.Chain' (fun a b => b.start_row = a.end_row + 1) cs ∧
  (∀ r, (1 ≤ r ∧ r ≤ n) ↔ ∃ c ∈ cs, c.start_row ≤ r ∧ r ≤ c.end_row) ∧
  List.Pairwise (fun a b => a.end_row < b.start_row) cs ∧
  (∀ c ∈ cs.dropLast, c.row_count = chunk_size) ∧
  (cs.map (fun c => c.rows)).flatten = dataRows ∧
  (∀ c ∈ cs, c.rows.length = c.row_count)

/-- **C6**: for every source CSV split with chunk size `C ≥ 1`, chunk
numbers form the dense sequence `1..n`; `start_row`/`end_row` are 1-based
offsets into the original file's data rows (header excluded); the row
ranges are contiguous, non-overlapping and cover all data rows; the
`row_count`s sum to the total number of data rows; and every chunk except
possibly the last holds exactly `C` rows (the final partial accumulation
is flushed as the last chunk regardless of size). -/
theorem chunk_csv_row_ranges (dataRows : List (List String)) (chunk_size : Nat)
    (hcs : 1 ≤ chunk_size) :
    chunkRangeSpec chunk_size dataRows.length
      (chunk_csv dataRows chunk_size) dataRows := by
  have h := chunk_csv_covers dataRows chunk_size hcs
  have hsum := coversFrom_sum chunk_size _ 0 1 dataRows.length h
  refine ⟨?_, by omega, ?_, ?_, ?_, ?_, ?_, ?_, ?_⟩
  · simpa using coversFrom_map_number chunk_size _ 0 1 dataRows.length h
  · exact coversFrom_mem chunk_size _ 0 1 dataRows.length h
  · exact coversFrom_chain chunk_size _ 0 1 dataRows.length h
  · intro r
    constructor
    · intro hr
      exact coversFrom_cover chunk_size _ 0 1 dataRows.length h r hr.1 hr.2
    · intro hr
      obtain ⟨c, hc, hc1, hc2⟩ := hr
      exact coversFrom_cover_conv chunk_size _ 0 1 dataRows.length h c hc r hc1 hc2
  · exact coversFrom_pairwise chunk_size _ 0 1 dataRows.length h
  · exact coversFrom_dropLast chunk_size _ 0 1 dataRows.length h
  · simpa [chunk_csv] using chunkLoop_join chunk_size dataRows [] 0 0
  · exact chunkLoop_rows_len chunk_size dataRows [] 0 0

/-- Witness for C6: a five-row source split with chunk size 2 satisfies
the full row-range specification (chunks of 2, 2 and 1 rows). -/
theorem chunk_csv_row_ranges_witness :
    chunkRangeSpec 2 5
      (chunk_csv [["a"], ["b"], ["c"], ["d"], ["e"]] 2)
      [["a"], ["b"], ["c"], ["d"], ["e"]] :=
  chunk_csv_row_ranges [["a"], ["b"], ["c"], ["d"], ["e"]] 2 (by decide)

/-- A concrete ledger record in a failed state, used as test input. -/
def failedChunk : ChunkRecord :=
  { chunk_number := 1, chunk_filename := "opinions-2025-01-01.chunk_0001.csv"
    chunk_start_row := 1, chunk_end_row := 10, chunk_row_count := 10
    status := "failed", rows_imported := some 4, rows_skipped := some 1
    started_at := some 3, completed_at := some 9, duration_seconds := some 6
    error_message := some "boom", retry_count := 2
    import_method := some "standard" }

/-- A concrete ledger record in a processing state, used as test input. -/
def processingChunk : ChunkRecord :=
  { chunk_number := 2, chunk_filename := "opinions-2025-01-01.chunk_0002.csv"
    chunk_start_row := 11, chunk_end_row := 20, chunk_row_count := 10
    status := "processing", rows_imported := some 0, rows_skipped := some 0
    started_at := some 12, completed_at := none, duration_seconds := none
    error_message := none, retry_count := 0
    import_method := some "standard" }

/-- **C8**: after `reset_chunks`, every matching chunk record has status
`pending`, `rows_imported`/`rows_skipped` equal to 0, null `started_at`,
`completed_at`, `duration_seconds` and `error_message`, and
`retry_count` 0, while `chunk_filename`, `chunk_start_row` and
`chunk_end_row` (and the other identification fields) are unchanged; the
call returns the number of matching chunk records. -/
theorem reset_chunks_spec (chunks : List ChunkRecord) :
    (reset_chunks chunks).2 = chunks.length ∧
    (reset_chunks chunks).1.map
        (fun c => (c.chunk_number, c.chunk_filename, c.chunk_start_row,
          c.chunk_end_row, c.chunk_row_count, c.import_method))
      = chunks.map
        (fun c => (c.chunk_number, c.chunk_filename, c.chunk_start_row,
          c.chunk_end_row, c.chunk_row_count, c.import_method)) ∧
    ∀ c ∈ (reset_chunks chunks).1,
      c.status = "pending" ∧ c.rows_imported = some 0 ∧
      c.rows_skipped = some 0 ∧ c.started_at = none ∧ c.completed_at = none ∧
      c.duration_seconds = none ∧ c.error_message = none ∧ c.retry_count = 0 := by
  refine ⟨rfl, ?_, ?_⟩
  · simp [reset_chunks, resetRecord]
  · intro c hc
    simp only [reset_chunks, List.mem_map] at hc
    obtain ⟨a, _, ha⟩ := hc
    subst ha
    exact ⟨rfl, rfl, rfl, rfl, rfl, rfl, rfl, rfl⟩

/-- Witness for C8 at a concrete two-record ledger. -/
theorem reset_chunks_spec_witness :
    (reset_chunks [failedChunk, processingChunk]).2 = 2 ∧
    (reset_chunks [failedChunk, processingChunk]).1.map
        (fun c => (c.chunk_number, c.chunk_filename, c.chunk_start_row,
          c.chunk_end_row, c.chunk_row_count, c.import_method))
      = [failedChunk, processingChunk].map
        (fun c => (c.chunk_number, c.chunk_filename, c.chunk_start_row,
          c.chunk_end_row, c.chunk_row_count, c.import_method)) ∧
    ∀ c ∈ (reset_chunks [failedChunk, processingChunk]).1,
      c.status = "pending" ∧ c.rows_imported = some 0 ∧
      c.rows_skipped = some 0 ∧ c.started_at = none ∧ c.completed_at = none ∧
      c.duration_seconds = none ∧ c.error_message = none ∧ c.retry_count = 0 :=
  reset_chunks_spec [failedChunk, processingChunk]

/-- C1's spec sentence, formalised word for word: the claimed
iff-characterisation of the derived overall status (to be compared
against the code's `get_progress_summary` branch chain). -/
def claimedOverallStatus (chunks : List ChunkRecord) (st : String) : Prop :=
  (st = "completed" ↔ countStatus chunks "completed" = chunks.length) ∧
  (st = "failed" ↔
    0 < countStatus chunks "failed" ∧ countStatus chunks "processing" = 0) ∧
  (st = "processing" ↔ 0 < countStatus chunks "processing") ∧
  (st = "in_progress" ↔
    0 < countStatus chunks "completed" ∧ 0 < countStatus chunks "pending") ∧
  (st ≠ "completed" → st ≠ "failed" → st ≠ "processing" →
    st ≠ "in_progress" → st = "pending")

/-- Counterexample to C1 as stated: with one failed and one processing
chunk the code reports overall status `failed` (the `failed > 0` branch is
checked before the `processing > 0` branch), while the claim requires a
status other than `failed` whenever some chunk is processing — and
requires `processing`.  So the claimed iff-characterisation fails. -/
theorem get_progress_summary_claim_false :
    ¬ claimedOverallStatus [failedChunk, processingChunk]
        ((get_progress_summary [failedChunk, processingChunk]).status) := by
  unfold claimedOverallStatus
  decide

/-- **C1** (amended): the overall status is derived by the first matching
rule in this order: `completed` iff every chunk is completed; otherwise
`failed` iff at least one chunk is failed; otherwise `processing` iff at
least one chunk is processing; otherwise `in_progress` iff some pending
and some completed chunks remain; otherwise `pending`.  (The code checks
`failed > 0` before `processing > 0`, so a failed chunk wins over a
concurrently processing one, unlike the claim's unordered iffs.) -/
theorem get_progress_summary_status (chunks : List ChunkRecord)
    (hne : chunks ≠ []) :
    ((get_progress_summary chunks).status = "completed" ↔
      countStatus chunks "completed" = chunks.length) ∧
    (countStatus chunks "completed" ≠ chunks.length →
      ((get_progress_summary chunks).status = "failed" ↔
        0 < countStatus chunks "failed")) ∧
    (countStatus chunks "completed" ≠ chunks.length →
      countStatus chunks "failed" = 0 →
      ((get_progress_summary chunks).status = "processing" ↔
        0 < countStatus chunks "processing")) ∧
    (countStatus chunks "completed" ≠ chunks.length →
      countStatus chunks "failed" = 0 →
      countStatus chunks "processing" = 0 →
      ((get_progress_summary chunks).status = "in_progress" ↔
        0 < countStatus chunks "pending" ∧
        0 < countStatus chunks "completed")) ∧
    (countStatus chunks "completed" ≠ chunks.length →
      countStatus chunks "failed" = 0 →
      countStatus chunks "processing" = 0 →
      ¬(0 < countStatus chunks "pending" ∧
        0 < countStatus chunks "completed") →
      (get_progress_summary chunks).status = "pending") := by
  have hic : chunks.isEmpty = false := by
    cases chunks with
    | nil => exact absurd rfl hne
    | cons a l => rfl
  simp only [get_progress_summary, hic, Bool.false_eq_true, if_false]
  split_ifs with h1 h2 h3 h4
  · have hc : countStatus chunks "completed" = chunks.length := by
      simpa using h1
    refine ⟨by simp [hc], ?_, ?_, ?_, ?_⟩ <;> intro hx <;> exact absurd hc hx
  · have hc : countStatus chunks "completed" ≠ chunks.length := by
      intro hx
      exact absurd (by simpa using hx) (by simpa using h1)
    refine ⟨by simp [hc], ?_, ?_, ?_, ?_⟩
    · intro _
      simpa using h2
    · intro _ hf
      omega
    · intro _ hf
      omega
    · intro _ hf
      omega
  · have hc : countStatus chunks "completed" ≠ chunks.length := by
      intro hx
      exact absurd (by simpa using hx) (by simpa using h1)
    refine ⟨by simp [hc], ?_, ?_, ?_, ?_⟩
    · intro _
      constructor
      · intro hx
        exact absurd hx (by decide)
      · intro hx
        omega
    · intro _ _
      simpa using h3
    · intro _ _ hp
      omega
    · intro _ _ hp
      omega
  · have hc : countStatus chunks "completed" ≠ chunks.length := by
      intro hx
      exact absurd (by simpa using hx) (by simpa using h1)
    have h4x : 0 < countStatus chunks "pending" ∧
        0 < countStatus chunks "completed" := by
      have := h4
      simp only [Bool.and_eq_true, decide_eq_true_eq] at this
      exact this
    refine ⟨by simp [hc], ?_, ?_, ?_, ?_⟩
    · intro _
      constructor
      · intro hx
        exact absurd hx (by decide)
      · intro hx
        omega
    · intro _ _
      constructor
      · intro hx
        exact absurd hx (by decide)
      · intro hx
        omega
    · intro _ _ _
      simp [h4x]
    · intro _ _ _ hx
      exact absurd h4x hx
  · have hc : countStatus chunks "completed" ≠ chunks.length := by
      intro hx
      exact absurd (by simpa using hx) (by simpa using h1)
    have h4x : ¬(0 < countStatus chunks "pending" ∧
        0 < countStatus chunks "completed") := by
      intro hx
      apply h4
      simp only [Bool.and_eq_true, decide_eq_true_eq]
      exact hx
    refine ⟨by simp [hc], ?_, ?_, ?_, ?_⟩
    · intro _
      constructor
      · intro hx
        exact absurd hx (by decide)
      · intro hx
        omega
    · intro _ _
      constructor
      · intro hx
        exact absurd hx (by decide)
      · intro hx
        omega
    · intro _ _ _
      constructor
      · intro hx
        exact absurd hx (by decide)
      · intro hx
        exact absurd hx h4x
    · intro _ _ _ _
      rfl

/-- Witness for the amended C1: with one failed and one processing chunk,
the derived status satisfies the priority-ordered characterisation. -/
theorem get_progress_summary_status_witness :
    ((get_progress_summary [failedChunk, processingChunk]).status = "completed" ↔
      countStatus [failedChunk, processingChunk] "completed" = 2) ∧
    (countStatus [failedChunk, processingChunk] "completed" ≠ 2 →
      ((get_progress_summary [failedChunk, processingChunk]).status = "failed" ↔
        0 < countStatus [failedChunk, processingChunk] "failed")) ∧
    (countStatus [failedChunk, processingChunk] "completed" ≠ 2 →
      countStatus [failedChunk, processingChunk] "failed" = 0 →
      ((get_progress_summary [failedChunk, processingChunk]).status = "processing" ↔
        0 < countStatus [failedChunk, processingChunk] "processing")) ∧
    (countStatus [failedChunk, processingChunk] "completed" ≠ 2 →
      countStatus [failedChunk, processingChunk] "failed" = 0 →
      countStatus [failedChunk, processingChunk] "processing" = 0 →
      ((get_progress_summary [failedChunk, processingChunk]).status = "in_progress" ↔
        0 < countStatus [failedChunk, processingChunk] "pending" ∧
        0 < countStatus [failedChunk, processingChunk] "completed")) ∧
    (countStatus [failedChunk, processingChunk] "completed" ≠ 2 →
      countStatus [failedChunk, processingChunk] "failed" = 0 →
      countStatus [failedChunk, processingChunk] "processing" = 0 →
      ¬(0 < countStatus [failedChunk, processingChunk] "pending" ∧
        0 < countStatus [failedChunk, processingChunk] "completed") →
      (get_progress_summary [failedChunk, processingChunk]).status = "pending") :=
  get_progress_summary_status [failedChunk, processingChunk]
    (List.cons_ne_nil _ _)

/-! ## Importer variants (`DataImporter`, data_importer.py)

The CSV text has already been tokenised (Python's `csv.reader` handles the
quote-aware parsing); the embedding starts from the list of records, each
a list of field strings.  Database effects are explicit: the session is a
(committed, current) pair of tables, `session.commit()` copies current to
committed, `session.rollback()` copies committed back to current, and
whether the driver raises on a given batch is supplied by a `batchFails`
oracle indexed by the 1-based batch (`chunk_num`) counter. -/

/-- `boolean_columns` (data_importer.py line 298). -/
def boolean_columns : List String := ["blocked", "ia_needs_upload"]

/-- `date_columns` (data_importer.py lines 299-302). -/
def date_columns : List String :=
  ["date_created", "date_modified", "date_filed", "date_terminated",
   "date_argued", "date_reargued", "date_reargument_denied",
   "date_cert_granted", "date_cert_denied", "date_last_index",
   "date_last_filing", "date_blocked", "ia_date_first_change"]

/-- Per-field conversion of `import_csv` (data_importer.py lines 324-333):
empty string to NULL, `t`/`f` in a boolean column to a boolean, literal
`0` in a date column to NULL. -/
def convertField (col value : String) : Value :=
  if value == "" then Value.null
  else if boolean_columns.contains col && (value == "t" || value == "f") then
    Value.boolean (value == "t")
  else if date_columns.contains col && value == "0" then Value.null
  else Value.str value

/-- Whether Python's `int(s)` succeeds on a string field: optional
surrounding whitespace, an optional sign, then at least one digit.
(Python additionally accepts underscore digit grouping, which the
repository's integer id fields never use.)  Written over the character
list so that it evaluates by kernel reduction. -/
def pyIntParses (s : String) : Bool :=
  let t := ((s.toList.dropWhile Char.isWhitespace).reverse.dropWhile
    Char.isWhitespace).reverse
  let t2 := match t with
    | c :: rest => if c == '-' || c == '+' then rest else t
    | [] => []
  !t2.isEmpty && t2.all Char.isDigit

/-- `available_columns = [col for col in header if col in db_columns]`
(data_importer.py line 283). -/
def availableColumnsOf (dbColumns header : List String) : List String :=
  header.filter (fun col => dbColumns.contains col)

/-- The `row_dict` built for one well-shaped data row (data_importer.py
lines 319-334): each available column is read at its header index
(`col_indices`) and converted. -/
def buildRowDict (available_columns header : List String)
    (row : List String) : Row :=
  available_columns.map (fun col =>
    (col, convertField col (row.getD (header.indexOf col) "")))

/-- The minimal id validation (data_importer.py lines 336-343): if the
row dictionary has a non-null `id` value, it must parse as an integer,
otherwise the row is skipped as malformed. -/
def rowPassesIdCheck (r : Row) : Bool :=
  match (List.find? (fun p => p.1 == "id") r).map (·.2) with
  | some (Value.str s) => pyIntParses s
  | _ => true

/-- Session/loop state of `import_csv`: the last committed table, the
current (possibly uncommitted) table, the pending `chunk_rows` batch, the
1-based batch counter, and the two running counters. -/
structure ImportState where
  committed : Table
  current : Table
  chunk_rows : List Row
  chunk_num : Nat
  total_rows_imported : Nat
  skipped_rows : Nat
deriving DecidableEq, Repr

/-- The in-loop batch flush of `import_csv` (data_importer.py lines
356-384): execute the batch insert inside try/except — on failure roll
back to the last commit (dropping this batch and any uncommitted earlier
ones), on success count the submitted rows — then commit every 10
batches, then reset `chunk_rows`. -/
def flushBatch (batchFails : Nat → Bool) (st : ImportState) : ImportState :=
  let n := st.chunk_num + 1
  let st2 :=
    if batchFails n then
      { st with chunk_num := n, current := st.committed }
    else
      { st with chunk_num := n
                current := insertRows st.current st.chunk_rows
                total_rows_imported :=
                  st.total_rows_imported + st.chunk_rows.length }
  let st3 := if st2.chunk_num % 10 == 0 then { st2 with committed := st2.current }
             else st2
  { st3 with chunk_rows := [] }

/-- The final-batch flush of `import_csv` (data_importer.py lines
387-404): same try/except insert, but with no periodic commit step. -/
def flushFinal (batchFails : Nat → Bool) (st : ImportState) : ImportState :=
  let n := st.chunk_num + 1
  if batchFails n then
    { st with chunk_num := n, current := st.committed }
  else
    { st with chunk_num := n
              current := insertRows st.current st.chunk_rows
              total_rows_imported :=
                st.total_rows_imported + st.chunk_rows.length }

/-- The data-row loop of `import_csv` (data_importer.py lines 309-384):
wrong column count — skip and continue; failed id validation — skip and
continue; otherwise append the converted row dictionary to the pending
batch and flush once it reaches `chunk_size` rows. -/
def importLoop (chunk_size : Nat) (available_columns header : List String)
    (batchFails : Nat → Bool) : List (List String) → ImportState → ImportState
  | [], st => st
  | row :: rest, st =>
    if row.length != header.length then
      importLoop chunk_size available_columns header batchFails rest
        { st with skipped_rows := st.skipped_rows + 1 }
    else
      let row_dict := buildRowDict available_columns header row
      if !rowPassesIdCheck row_dict then
        importLoop chunk_size available_columns header batchFails rest
          { st with skipped_rows := st.skipped_rows + 1 }
      else
        let st2 := { st with chunk_rows := st.chunk_rows ++ [row_dict] }
        let st3 := if chunk_size ≤ st2.chunk_rows.length then
                     flushBatch batchFails st2
                   else st2
        importLoop chunk_size available_columns header batchFails rest st3

/-- `DataImporter.import_csv` (data_importer.py lines 198-426), the
"standard" variant: returns `(final table, returned row count, skipped
rows)`.  The returned count is `count_after - count_before`, the diff of
the target table's size around the import (lines 407-415); `skipped_rows`
is the internal malformed-row counter (logged, not returned — kept here
so its value can be stated).  Reading an empty file makes
`next(csv_reader)` raise, and an empty column intersection raises
`ValueError`; both surface as `Except.error`. -/
def import_csv (dbColumns : List String) (csvRecords : List (List String))
    (table0 : Table) (chunk_size : Nat) (batchFails : Nat → Bool) :
    Except String (Table × Nat × Nat) :=
  match csvRecords with
  | [] => Except.error "StopIteration"
  | header :: dataRows =>
    let available_columns := availableColumnsOf dbColumns header
    if available_columns.isEmpty then
      Except.error "No matching columns between CSV and database table"
    else
      let count_before := table0.length
      let st0 : ImportState :=
        { committed := table0, current := table0, chunk_rows := []
          chunk_num := 0, total_rows_imported := 0, skipped_rows := 0 }
      let st1 := importLoop chunk_size available_columns header batchFails
        dataRows st0
      let st2 := if st1.chunk_rows.isEmpty then st1 else flushFinal batchFails st1
      let st3 := { st2 with committed := st2.current }
      Except.ok (st3.committed, st3.committed.length - count_before,
        st3.skipped_rows)

deriving instance DecidableEq for Except

/-- Session/loop state of `import_csv_pandas`. -/
structure PandasState where
  committed : Table
  current : Table
  chunk_num : Nat
  total_imported : Nat
  skipped_rows : Nat
deriving DecidableEq, Repr

/-- One `pd.read_csv` chunk of `import_csv_pandas` (data_importer.py
lines 141-183): try the batch insert — on failure roll back, count the
batch as skipped and `continue` (which also skips the periodic commit);
on success count the submitted rows and commit every 10 chunks. -/
def pandasStep (batchFails : Nat → Bool) (st : PandasState)
    (chunk_rows : List Row) : PandasState :=
  let n := st.chunk_num + 1
  if batchFails n then
    { st with chunk_num := n, current := st.committed
              skipped_rows := st.skipped_rows + chunk_rows.length }
  else
    let st2 := { st with chunk_num := n
                         current := insertRows st.current chunk_rows
                         total_imported := st.total_imported + chunk_rows.length }
    if st2.chunk_num % 10 == 0 then { st2 with committed := st2.current } else st2

/-- `DataImporter.import_csv_pandas` (data_importer.py lines 60-196), the
"pandas" variant, starting from the already-parsed row-dictionary chunks
(`pd.read_csv(..., chunksize=...)` output after column filtering and NaN
normalisation).  After the final commit it computes `count_after` (used
only in the log line) and returns `total_imported` (line 192) — the
number of rows submitted in batches that executed without error. -/
def import_csv_pandas (chunkedRows : List (List Row)) (table0 : Table)
    (batchFails : Nat → Bool) : Table × Nat :=
  let st0 : PandasState :=
    { committed := table0, current := table0, chunk_num := 0
      total_imported := 0, skipped_rows := 0 }
  let st := chunkedRows.foldl (pandasStep batchFails) st0
  let st2 := { st with committed := st.current }
  (st2.committed, st2.total_imported)

/-- `DataImporter.import_csv_with_postgres_copy` (data_importer.py lines
428-527), the "copy" variant, success path: `COPY` loads every file row
into a fresh same-shape staging table, then
`INSERT INTO target SELECT * FROM staging ON CONFLICT (id) DO NOTHING`
merges it, the staging table is dropped, and the returned count is
`count_after - count_before` (lines 508-518). -/
def import_csv_with_postgres_copy (csvRows : List Row) (table0 : Table) :
    Table × Nat :=
  let staging := csvRows
  let final := insertRows table0 staging
  (final, final.length - table0.length)

/-! ## C7: idempotent re-import -/

/-- **C7**: importing the same chunk's rows twice (retry, or re-run after
reset) leaves the target table — and hence its row count — exactly as
after one import: each row's primary key is already present after the
first pass, so `ON CONFLICT (id) DO NOTHING` makes every second-pass
insert a no-op.  The hypothesis that every row carries an `id` value
reflects the imported CSVs' non-null primary-key column. -/
theorem insertRows_idempotent (t : Table) (rs : List Row)
    (h : ∀ r ∈ rs, (rowId r).isSome) :
    insertRows (insertRows t rs) rs = insertRows t rs ∧
    (insertRows (insertRows t rs) rs).length = (insertRows t rs).length := by
  have heq : insertRows (insertRows t rs) rs = insertRows t rs := by
    apply insertRows_eq_self
    intro r hr
    obtain ⟨v, hv⟩ := Option.isSome_iff_exists.mp (h r hr)
    exact ⟨v, hv, any_id_insertRows t rs r v hv hr⟩
  exact ⟨heq, by rw [heq]⟩

/-- A two-row chunk used as concrete test input. -/
def twoRowChunk : List Row :=
  [[("id", Value.str "1"), ("name", Value.str "a")],
   [("id", Value.str "2"), ("name", Value.str "b")]]

/-- Witness for C7: re-importing a concrete two-row chunk into an empty
table changes nothing the second time. -/
theorem insertRows_idempotent_witness :
    insertRows (insertRows [] twoRowChunk) twoRowChunk
      = insertRows [] twoRowChunk ∧
    (insertRows (insertRows [] twoRowChunk) twoRowChunk).length
      = (insertRows [] twoRowChunk).length :=
  insertRows_idempotent [] twoRowChunk (by decide)

/-! ## C3: batch-level insert errors -/

/-- Batch-failure oracle for the C3 scenario: the first batch insert
raises, every later one succeeds. -/
def firstBatchFails : Nat → Bool := fun n => n == 1

/-- Counterexample to C3 as stated: with batch size 1 and two valid rows,
the first batch's insert error does *not* propagate out of
`import_csv` — the call still returns `Except.ok` — and the second
batch *is* salvaged (the final table holds exactly the second row, and
the reported net count is 1).  So a batch-level error neither rolls back
the whole chunk nor surfaces to the orchestrator; only the failed batch's
rows are dropped. -/
theorem import_csv_batch_error_salvages :
    firstBatchFails 1 = true ∧
    import_csv ["id", "name"] [["id", "name"], ["1", "a"], ["2", "b"]] [] 1
        firstBatchFails
      = Except.ok ([[("id", Value.str "2"), ("name", Value.str "b")]], 1, 0) := by
  constructor
  · rfl
  · decide

/-- **C3** (amended): a batch-level insert error is absorbed inside the
importer: the session is rolled back to the last commit (dropping the
failed batch and any earlier uncommitted batches), the batch's rows are
not counted, the pending batch is cleared, and the loop continues with
the remaining batches — `import_csv` never returns an error because of a
failed batch (its only error exits are an empty file and an empty column
intersection), so nothing reaches the orchestrator's retry logic. -/
theorem import_csv_absorbs_batch_errors :
    (∀ (dbColumns header : List String) (dataRows : List (List String))
       (table0 : Table) (chunk_size : Nat) (batchFails : Nat → Bool),
      (availableColumnsOf dbColumns header).isEmpty = false →
      ∃ out, import_csv dbColumns (header :: dataRows) table0 chunk_size
        batchFails = Except.ok out) ∧
    (∀ (batchFails : Nat → Bool) (st : ImportState),
      batchFails (st.chunk_num + 1) = true →
      (flushBatch batchFails st).current = st.committed ∧
      (flushBatch batchFails st).chunk_rows = [] ∧
      (flushBatch batchFails st).total_rows_imported
        = st.total_rows_imported ∧
      (flushBatch batchFails st).skipped_rows = st.skipped_rows) := by
  constructor
  · intro dbColumns header dataRows table0 chunk_size batchFails hcols
    simp only [import_csv, hcols, Bool.false_eq_true, if_false]
    exact ⟨_, rfl⟩
  · intro batchFails st hfail
    simp only [flushBatch, hfail, if_true]
    by_cases hmod : (st.chunk_num + 1) % 10 == 0
    · simp [hmod]
    · simp [hmod]

/-- Witness for the amended C3 at the concrete failing-batch scenario. -/
theorem import_csv_absorbs_batch_errors_witness :
    (∃ out, import_csv ["id", "name"] [["id", "name"], ["1", "a"], ["2", "b"]]
      [] 1 firstBatchFails = Except.ok out) ∧
    ((flushBatch firstBatchFails
        { committed := [], current := [], chunk_rows := twoRowChunk
          chunk_num := 0, total_rows_imported := 0, skipped_rows := 0 }).current = [] ∧
     (flushBatch firstBatchFails
        { committed := [], current := [], chunk_rows := twoRowChunk
          chunk_num := 0, total_rows_imported := 0, skipped_rows := 0 }).chunk_rows = [] ∧
     (flushBatch firstBatchFails
        { committed := [], current := [], chunk_rows := twoRowChunk
          chunk_num := 0, total_rows_imported := 0, skipped_rows := 0 }).total_rows_imported = 0 ∧
     (flushBatch firstBatchFails
        { committed := [], current := [], chunk_rows := twoRowChunk
          chunk_num := 0, total_rows_imported := 0, skipped_rows := 0 }).skipped_rows = 0) :=
  ⟨import_csv_absorbs_batch_errors.1 ["id", "name"] ["id", "name"]
      [["1", "a"], ["2", "b"]] [] 1 firstBatchFails (by decide),
   import_csv_absorbs_batch_errors.2 firstBatchFails
      { committed := [], current := [], chunk_rows := twoRowChunk
        chunk_num := 0, total_rows_imported := 0, skipped_rows := 0 } (by decide)⟩

/-! ## C4: reported row counts of the three variants -/

/-- A single row with primary key 1, used as concrete test input. -/
def dupRow : Row := [("id", Value.str "1")]

/-- Counterexample to C4 as stated: importing one row whose `id` already
exists in the target table through the pandas variant returns 1 (the row
was submitted in a successful batch), while the net new row count — the
before/after difference of the table's size — is 0.  So not every variant
reports the net diff. -/
theorem import_csv_pandas_not_net_count :
    (import_csv_pandas [[dupRow]] [dupRow] (fun _ => false)).2 = 1 ∧
    (import_csv_pandas [[dupRow]] [dupRow] (fun _ => false)).1.length
      - ([dupRow] : Table).length = 0 := by
  constructor
  · rfl
  · rfl

/-- The number of rows submitted in batches that execute without error,
for batches numbered from `n + 1`: what `import_csv_pandas` accumulates
in `total_imported`. -/
def submittedFrom (batchFails : Nat → Bool) : Nat → List (List Row) → Nat
  | _, [] => 0
  | n, c :: rest =>
    (if batchFails (n + 1) then 0 else c.length)
      + submittedFrom batchFails (n + 1) rest

theorem pandasStep_chunk_num (batchFails : Nat → Bool) (st : PandasState)
    (c : List Row) :
    (pandasStep batchFails st c).chunk_num = st.chunk_num + 1 := by
  simp only [pandasStep]
  by_cases hf : batchFails (st.chunk_num + 1) = true
  · simp [hf]
  · simp only [Bool.not_eq_true] at hf
    by_cases hmod : (st.chunk_num + 1) % 10 == 0
    · simp [hf, hmod]
    · simp [hf, hmod]

theorem pandasStep_total (batchFails : Nat → Bool) (st : PandasState)
    (c : List Row) :
    (pandasStep batchFails st c).total_imported
      = st.total_imported
        + (if batchFails (st.chunk_num + 1) then 0 else c.length) := by
  simp only [pandasStep]
  by_cases hf : batchFails (st.chunk_num + 1) = true
  · simp [hf]
  · simp only [Bool.not_eq_true] at hf
    by_cases hmod : (st.chunk_num + 1) % 10 == 0
    · simp [hf, hmod]
    · simp [hf, hmod]

theorem foldl_pandasStep_total (batchFails : Nat → Bool) :
    ∀ (chunkedRows : List (List Row)) (st : PandasState),
      (List.foldl (pandasStep batchFails) st chunkedRows).total_imported
        = st.total_imported + submittedFrom batchFails st.chunk_num chunkedRows := by
  intro chunkedRows
  induction chunkedRows with
  | nil => intro st; simp [submittedFrom]
  | cons c rest ih =>
    intro st
    simp only [List.foldl_cons, submittedFrom]
    rw [ih (pandasStep batchFails st c), pandasStep_total,
      pandasStep_chunk_num]
    omega

/-- **C4** (amended): the standard and copy variants return the net new
row count — the difference of the target table's size before and after
the import — but the pandas variant instead returns the number of rows
submitted in batches that executed without error, which overcounts
whenever a submitted row is conflict-skipped. -/
theorem import_return_counts :
    (∀ (dbColumns : List String) (csvRecords : List (List String))
       (table0 : Table) (chunk_size : Nat) (batchFails : Nat → Bool)
       (t : Table) (n sk : Nat),
      import_csv dbColumns csvRecords table0 chunk_size batchFails
        = Except.ok (t, n, sk) →
      n = t.length - table0.length) ∧
    (∀ (csvRows : List Row) (table0 : Table),
      (import_csv_with_postgres_copy csvRows table0).2
        = (import_csv_with_postgres_copy csvRows table0).1.length
          - table0.length) ∧
    (∀ (chunkedRows : List (List Row)) (table0 : Table)
       (batchFails : Nat → Bool),
      (import_csv_pandas chunkedRows table0 batchFails).2
        = submittedFrom batchFails 0 chunkedRows) := by
  refine ⟨?_, ?_, ?_⟩
  · intro dbColumns csvRecords table0 chunk_size batchFails t n sk h
    match csvRecords with
    | [] => exact absurd h (by simp [import_csv])
    | header :: dataRows =>
      by_cases hcols : (availableColumnsOf dbColumns header).isEmpty
      · exact absurd h (by simp [import_csv, hcols])
      · simp only [import_csv, hcols, Bool.false_eq_true, if_false,
          Except.ok.injEq, Prod.mk.injEq] at h
        obtain ⟨ht, hn, _⟩ := h
        rw [← ht, ← hn]
  · intro csvRows table0
    rfl
  · intro chunkedRows table0 batchFails
    show (List.foldl (pandasStep batchFails)
      { committed := table0, current := table0, chunk_num := 0
        total_imported := 0, skipped_rows := 0 } chunkedRows).total_imported
      = submittedFrom batchFails 0 chunkedRows
    rw [foldl_pandasStep_total]
    simp

/-- Witness for the amended C4: a concrete standard-variant run whose
returned count equals the table-size diff, plus the concrete copy and
pandas instantiations. -/
theorem import_return_counts_witness :
    (import_csv ["id"] [["id"], ["1"]] [] 100 (fun _ => false)
        = Except.ok ([[("id", Value.str "1")]], 1, 0) ∧
      (1 : Nat) = ([[("id", Value.str "1")]] : Table).length
        - ([] : Table).length) ∧
    (import_csv_with_postgres_copy [dupRow] []).2
      = (import_csv_with_postgres_copy [dupRow] []).1.length
        - ([] : Table).length ∧
    (import_csv_pandas [[dupRow]] [dupRow] (fun _ => false)).2
      = submittedFrom (fun _ => false) 0 [[dupRow]] :=
  ⟨⟨by decide, import_return_counts.1 ["id"] [["id"], ["1"]] [] 100 (fun _ => false)
      [[("id", Value.str "1")]] 1 0 (by decide)⟩,
   import_return_counts.2.1 [dupRow] [],
   import_return_counts.2.2 [[dupRow]] [dupRow] (fun _ => false)⟩

/-! ## C9: malformed-row tolerance of `import_csv` -/

/-- The data rows of a file whose column count differs from the header's
(the rows `import_csv` skips at data_importer.py lines 312-315). -/
def malformedCount (header : List String) (dataRows : List (List String)) : Nat :=
  (dataRows.filter (fun row => row.length != header.length)).length

/-- The well-shaped data rows whose converted dictionary fails the id
validation (skipped at data_importer.py lines 348-353). -/
def invalidKeyCount (dbColumns header : List String)
    (dataRows : List (List String)) : Nat :=
  (((dataRows.filter (fun row => row.length == header.length)).map
      (buildRowDict (availableColumnsOf dbColumns header) header)).filter
    (fun r => !rowPassesIdCheck r)).length

/-- The converted row dictionaries of the data rows that survive both the
column-count check and the id validation, in file order: exactly the rows
`import_csv` submits for insertion. -/
def parsedValidRows (dbColumns header : List String)
    (dataRows : List (List String)) : List Row :=
  ((dataRows.filter (fun row => row.length == header.length)).map
      (buildRowDict (availableColumnsOf dbColumns header) header)).filter
    (fun r => rowPassesIdCheck r)

theorem flushBatch_no_fail (batchFails : Nat → Bool) (st : ImportState)
    (h : batchFails (st.chunk_num + 1) = false) :
    (flushBatch batchFails st).current = insertRows st.current st.chunk_rows ∧
    (flushBatch batchFails st).chunk_rows = [] ∧
    (flushBatch batchFails st).skipped_rows = st.skipped_rows := by
  simp only [flushBatch, h, Bool.false_eq_true, if_false]
  by_cases hmod : (st.chunk_num + 1) % 10 == 0
  · simp [hmod]
  · simp [hmod]

theorem flushFinal_no_fail (batchFails : Nat → Bool) (st : ImportState)
    (h : batchFails (st.chunk_num + 1) = false) :
    (flushFinal batchFails st).current = insertRows st.current st.chunk_rows ∧
    (flushFinal batchFails st).skipped_rows = st.skipped_rows := by
  simp [flushFinal, h]

/-- Loop invariant of `importLoop` when no batch insert fails: the table
state composed with the pending batch equals the starting state extended
by every surviving row, and the skip counter counts exactly the
wrong-column-count rows plus the id-validation failures. -/
theorem importLoop_no_fail (chunk_size : Nat) (avail header : List String)
    (batchFails : Nat → Bool) (hnf : ∀ n, batchFails n = false) :
    ∀ (rows : List (List String)) (st : ImportState),
      insertRows (importLoop chunk_size avail header batchFails rows st).current
          (importLoop chunk_size avail header batchFails rows st).chunk_rows
        = insertRows (insertRows st.current st.chunk_rows)
            (((rows.filter (fun row => row.length == header.length)).map
                (buildRowDict avail header)).filter
              (fun r => rowPassesIdCheck r)) ∧
      (importLoop chunk_size avail header batchFails rows st).skipped_rows
        = st.skipped_rows
          + (rows.filter (fun row => row.length != header.length)).length
          + (((rows.filter (fun row => row.length == header.length)).map
                (buildRowDict avail header)).filter
              (fun r => !rowPassesIdCheck r)).length := by
  intro rows
  induction rows with
  | nil =>
    intro st
    simp [importLoop, insertRows]
  | cons row rest ih =>
    intro st
    by_cases hlen : (row.length == header.length) = true
    · have hne : (row.length != header.length) = false := by
        simp only [bne, hlen, Bool.not_true]
      by_cases hid : rowPassesIdCheck (buildRowDict avail header row) = true
      · simp only [importLoop, hne, Bool.false_eq_true, if_false, hid,
          Bool.not_true]
        by_cases hfl : chunk_size ≤ (st.chunk_rows ++ [buildRowDict avail header row]).length
        · rw [if_pos hfl]
          obtain ⟨ihA, ihB⟩ := ih (flushBatch batchFails
            { st with chunk_rows := st.chunk_rows ++ [buildRowDict avail header row] })
          obtain ⟨hfb1, hfb2, hfb3⟩ := flushBatch_no_fail batchFails
            { st with chunk_rows := st.chunk_rows ++ [buildRowDict avail header row] }
            (hnf _)
          constructor
          · rw [ihA, hfb1, hfb2]
            simp only [List.filter_cons, hlen, if_true, List.map_cons,
              List.filter_cons, hid, if_true]
            rw [insertRows_nil, insertRows_append]
            rfl
          · rw [ihB, hfb3]
            simp only [List.filter_cons, hlen, hne, Bool.false_eq_true,
              if_false, if_true, List.map_cons, hid, Bool.not_true]
            try simp
        · rw [if_neg hfl]
          obtain ⟨ihA, ihB⟩ := ih
            { st with chunk_rows := st.chunk_rows ++ [buildRowDict avail header row] }
          constructor
          · rw [ihA]
            simp only [List.filter_cons, hlen, if_true, List.map_cons,
              List.filter_cons, hid, if_true]
            rw [insertRows_append]
            rfl
          · rw [ihB]
            simp only [List.filter_cons, hlen, hne, Bool.false_eq_true,
              if_false, if_true, List.map_cons, hid, Bool.not_true]
            try simp
      · have hid2 : (!rowPassesIdCheck (buildRowDict avail header row)) = true := by
          simp only [Bool.not_eq_true] at hid
          simp [hid]
        simp only [importLoop, hne, Bool.false_eq_true, if_false, hid2, if_true]
        obtain ⟨ihA, ihB⟩ := ih { st with skipped_rows := st.skipped_rows + 1 }
        have hid3 : rowPassesIdCheck (buildRowDict avail header row) = false := by
          simp only [Bool.not_eq_true] at hid
          exact hid
        constructor
        · rw [ihA]
          simp only [List.filter_cons, hlen, if_true, List.map_cons,
            List.filter_cons, hid3, Bool.false_eq_true, if_false]
          try rfl
        · rw [ihB]
          simp only [List.filter_cons, hlen, hne, Bool.false_eq_true,
            if_false, if_true, List.map_cons, hid2]
          try simp
          try omega
    · have hne : (row.length != header.length) = true := by
        simp only [Bool.not_eq_true] at hlen
        simp [bne, hlen]
      have hlen2 : (row.length == header.length) = false := by
        simp only [Bool.not_eq_true] at hlen
        exact hlen
      simp only [importLoop, hne, if_true]
      obtain ⟨ihA, ihB⟩ := ih { st with skipped_rows := st.skipped_rows + 1 }
      constructor
      · rw [ihA]
        simp only [List.filter_cons, hlen2, Bool.false_eq_true, if_false]
        try rfl
      · rw [ihB]
        simp only [List.filter_cons, hlen2, hne, Bool.false_eq_true, if_true,
          if_false]
        try simp
        try omega

/-- Inserting rows with pairwise-distinct, fresh, non-null ids grows the
table by exactly the number of rows (no conflict fires). -/
theorem insertRows_length_fresh :
    ∀ (rs : List Row) (t : Table),
      (∀ r ∈ rs, (rowId r).isSome) →
      (∀ r ∈ rs, ∀ r2 ∈ t, rowId r2 ≠ rowId r) →
      List.Pairwise (fun a b => rowId a ≠ rowId b) rs →
      (insertRows t rs).length = t.length + rs.length := by
  intro rs
  induction rs with
  | nil => intro t _ _ _; simp [insertRows]
  | cons r rest ih =>
    intro t hids hfresh hnodup
    obtain ⟨v, hv⟩ := Option.isSome_iff_exists.mp
      (hids r (List.mem_cons_self r rest))
    have hany : List.any t (fun r2 => rowId r2 == some v) = false := by
      rw [List.any_eq_false]
      intro r2 hr2
      have := hfresh r (List.mem_cons_self r rest) r2 hr2
      rw [hv] at this
      simp only [beq_iff_eq]
      exact this
    have hstep : insertSkip t r = t ++ [r] := by
      simp [insertSkip, hv, hany]
    have hrec := ih (t ++ [r])
      (fun b hb => hids b (List.mem_cons_of_mem r hb))
      (fun b hb r2 hr2 => by
        rcases List.mem_append.mp hr2 with h2 | h2
        · exact hfresh b (List.mem_cons_of_mem r hb) r2 h2
        · rcases List.mem_singleton.mp h2 with rfl
          exact (List.pairwise_cons.mp hnodup).1 b hb)
      (List.pairwise_cons.mp hnodup).2
    calc (insertRows t (r :: rest)).length
        = (insertRows (insertSkip t r) rest).length := rfl
      _ = (insertRows (t ++ [r]) rest).length := by rw [hstep]
      _ = (t ++ [r]).length + rest.length := hrec
      _ = t.length + (r :: rest).length := by simp; omega

/-- **C9**: for the standard import, any data row whose column count
differs from the header's is counted as skipped and processing continues,
and a well-shaped row failing the id validation is likewise skipped — one
bad row never aborts the file.  With no batch failure, fresh distinct ids
and a matching column intersection, the import returns normally with the
surviving rows inserted, the net count equal to their number, and the
skip counter equal to (wrong-column-count rows) + (id-validation
failures). -/
theorem import_csv_skips_malformed_rows (dbColumns header : List String)
    (dataRows : List (List String)) (table0 : Table) (chunk_size : Nat)
    (batchFails : Nat → Bool)
    (hcols : (availableColumnsOf dbColumns header).isEmpty = false)
    (hnf : ∀ n, batchFails n = false)
    (hids : ∀ r ∈ parsedValidRows dbColumns header dataRows, (rowId r).isSome)
    (hfresh : ∀ r ∈ parsedValidRows dbColumns header dataRows,
      ∀ r2 ∈ table0, rowId r2 ≠ rowId r)
    (hnodup : List.Pairwise (fun a b => rowId a ≠ rowId b)
      (parsedValidRows dbColumns header dataRows)) :
    import_csv dbColumns (header :: dataRows) table0 chunk_size batchFails
      = Except.ok
          (insertRows table0 (parsedValidRows dbColumns header dataRows),
           (parsedValidRows dbColumns header dataRows).length,
           malformedCount header dataRows
             + invalidKeyCount dbColumns header dataRows) := by
  obtain ⟨hA, hB⟩ := importLoop_no_fail chunk_size
    (availableColumnsOf dbColumns header) header batchFails hnf dataRows
    { committed := table0, current := table0, chunk_rows := []
      chunk_num := 0, total_rows_imported := 0, skipped_rows := 0 }
  simp only [import_csv, hcols, Bool.false_eq_true, if_false]
  set st1 := importLoop chunk_size (availableColumnsOf dbColumns header)
    header batchFails dataRows
    { committed := table0, current := table0, chunk_rows := []
      chunk_num := 0, total_rows_imported := 0, skipped_rows := 0 }
    with hst1
  have hA2 : insertRows st1.current st1.chunk_rows
      = insertRows table0 (parsedValidRows dbColumns header dataRows) := by
    rw [hA]
    rfl
  have hcur : (if st1.chunk_rows.isEmpty then st1
      else flushFinal batchFails st1).current
      = insertRows table0 (parsedValidRows dbColumns header dataRows) := by
    by_cases hemp : st1.chunk_rows.isEmpty
    · rw [if_pos hemp]
      rw [← hA2, List.isEmpty_iff.mp hemp]
      rfl
    · rw [if_neg hemp]
      rw [(flushFinal_no_fail batchFails st1 (hnf _)).1, hA2]
  have hskip : (if st1.chunk_rows.isEmpty then st1
      else flushFinal batchFails st1).skipped_rows
      = malformedCount header dataRows
        + invalidKeyCount dbColumns header dataRows := by
    by_cases hemp : st1.chunk_rows.isEmpty
    · rw [if_pos hemp, hB]
      simp [malformedCount, invalidKeyCount]
    · rw [if_neg hemp, (flushFinal_no_fail batchFails st1 (hnf _)).2, hB]
      simp [malformedCount, invalidKeyCount]
  have hlenfresh := insertRows_length_fresh
    (parsedValidRows dbColumns header dataRows) table0 hids hfresh hnodup
  rw [hcur, hskip]
  have hcount : (insertRows table0
        (parsedValidRows dbColumns header dataRows)).length - table0.length
      = (parsedValidRows dbColumns header dataRows).length := by
    omega
  rw [hcount]

/-- The C9 scenario's data rows: 8 well-formed two-column rows and 2 rows
whose column count differs from the header's. -/
def goodBadRows : List (List String) :=
  [["1", "a"], ["2", "b"], ["3", "c"], ["4", "d"], ["5", "e"], ["6", "f"],
   ["7", "g"], ["8", "h"], ["9"], ["10", "x", "y"]]

/-- Witness for C9: a chunk file with one well-formed header, 8
well-formed data rows and 2 wrong-column-count rows imports exactly the 8
rows, reports 2 skipped, and raises no exception. -/
theorem import_csv_skips_malformed_rows_witness :
    import_csv ["id", "name"] (["id", "name"] :: goodBadRows) [] 100000
        (fun _ => false)
      = Except.ok
          (insertRows []
            (parsedValidRows ["id", "name"] ["id", "name"] goodBadRows),
           (parsedValidRows ["id", "name"] ["id", "name"] goodBadRows).length,
           malformedCount ["id", "name"] goodBadRows
             + invalidKeyCount ["id", "name"] ["id", "name"] goodBadRows) ∧
    (parsedValidRows ["id", "name"] ["id", "name"] goodBadRows).length = 8 ∧
    malformedCount ["id", "name"] goodBadRows = 2 ∧
    invalidKeyCount ["id", "name"] ["id", "name"] goodBadRows = 0 :=
  ⟨import_csv_skips_malformed_rows ["id", "name"] ["id", "name"] goodBadRows
      [] 100000 (fun _ => false) (by decide) (fun _ => rfl) (by decide)
      (by decide) (by decide),
   by decide, by decide, by decide⟩

/-! ## Chunk import orchestrator (`CSVChunkManager.import_chunked`,
csv_chunk_manager.py lines 361-540)

External effects are oracles: `fileExists` tells whether a chunk's backing
file is on disk (keyed by chunk number), and `importer` gives the outcome
of one per-attempt importer invocation for a chunk — `Except.error msg`
models the raised exception, `Except.ok rows` the returned row count.
Time is an abstract tick counter threaded through `datetime.now` calls;
only which timestamp fields become set matters, not their values. -/

/-- How one chunk's retry loop ended: the importer succeeded on some
attempt, the final attempt failed, or the loop body never ran
(`range(max_retries)` empty). -/
inductive AttemptOutcome where
  | success (rows : Nat)
  | failedFinal (msg : String)
  | noAttempts
deriving DecidableEq, Repr

/-- `str(e)[:500]` (csv_chunk_manager.py line 507). -/
def truncate500 (s : String) : String := String.mk (s.toList.take 500)

/-- The `for attempt in range(max_retries)` retry loop of `import_chunked`
(csv_chunk_manager.py lines 450-523), as fuel-indexed recursion (`fuel`
iterations remain, `attempt` is the loop variable).  Each iteration marks
the record processing (setting `started_at`, `import_method`,
`retry_count := attempt`) and commits, invokes the importer, and on
success marks the record completed with timing and row count; on an
exception it either marks the record failed with the truncated message
(last attempt) or rolls back and retries.  Returns the updated record,
the number of attempts made, the outcome, and the clock. -/
def attemptLoop (importer : Nat → Nat → Except String Nat)
    (import_method : String) (max_retries : Nat) :
    Nat → Nat → ChunkRecord → Nat → ChunkRecord × Nat × AttemptOutcome × Nat
  | 0, attempt, c, t => (c, attempt, AttemptOutcome.noAttempts, t)
  | fuel + 1, attempt, c, t =>
    let c1 := { c with status := "processing", started_at := some t
                       import_method := some import_method
                       retry_count := attempt }
    let start_time := t + 1
    match importer c.chunk_number attempt with
    | Except.ok rows =>
      let end_time := start_time + 1
      let c2 := { c1 with status := "completed", completed_at := some end_time
                          duration_seconds := some (end_time - start_time)
                          rows_imported := some rows, error_message := none }
      (c2, attempt + 1, AttemptOutcome.success rows, end_time + 1)
    | Except.error e =>
      if attempt == max_retries - 1 then
        let msg := truncate500 e
        let c2 := { c1 with status := "failed"
                            completed_at := some (start_time + 1)
                            error_message := some msg }
        (c2, attempt + 1, AttemptOutcome.failedFinal msg, start_time + 2)
      else
        attemptLoop importer import_method max_retries fuel (attempt + 1) c1
          (start_time + 1)

/-- The aggregate `results` dictionary of `import_chunked`
(csv_chunk_manager.py lines 422-434); `errors` entries are
`(chunk_number, error, attempts)` with `attempts` present only for
retry-exhausted failures. -/
structure ImportResult where
  total_chunks : Nat
  processed_chunks : Nat
  successful_chunks : Nat
  failed_chunks : Nat
  skipped_chunks : Nat
  total_rows_imported : Nat
  total_rows_skipped : Nat
  import_method : String
  errors : List (Nat × String × Option Nat)
deriving DecidableEq, Repr

/-- The `for chunk_record in chunks_to_process` loop of `import_chunked`
(csv_chunk_manager.py lines 438-524).  A chunk whose backing file is
missing is marked failed immediately and the loop continues without
incrementing `processed_chunks` (the `continue` at line 447); otherwise
the retry loop runs and `processed_chunks` is incremented.  Also returns,
per visited chunk, the pair (chunk number, attempts made). -/
def processChunks (fileExists : Nat → Bool)
    (importer : Nat → Nat → Except String Nat) (import_method : String)
    (max_retries : Nat) :
    List ChunkRecord → ImportResult → Nat →
    List ChunkRecord × ImportResult × List (Nat × Nat) × Nat
  | [], res, t => ([], res, [], t)
  | c :: rest, res, t =>
    if fileExists c.chunk_number = false then
      let msg := "Chunk file not found: " ++ c.chunk_filename
      let c1 := { c with status := "failed", completed_at := some t
                         error_message := some msg }
      let res1 := { res with
        failed_chunks := res.failed_chunks + 1
        errors := res.errors ++ [(c.chunk_number, msg, none)] }
      let rec2 := processChunks fileExists importer import_method max_retries
        rest res1 (t + 1)
      (c1 :: rec2.1, rec2.2.1, (c.chunk_number, 0) :: rec2.2.2.1, rec2.2.2.2)
    else
      let done := attemptLoop importer import_method max_retries max_retries 0 c t
      let res1 :=
        match done.2.2.1 with
        | AttemptOutcome.success rows =>
          { res with successful_chunks := res.successful_chunks + 1
                     total_rows_imported := res.total_rows_imported + rows }
        | AttemptOutcome.failedFinal msg =>
          { res with failed_chunks := res.failed_chunks + 1
                     errors := res.errors
                       ++ [(c.chunk_number, msg, some max_retries)] }
        | AttemptOutcome.noAttempts => res
      let res2 := { res1 with processed_chunks := res1.processed_chunks + 1 }
      let rec2 := processChunks fileExists importer import_method max_retries
        rest res2 done.2.2.2
      (done.1 :: rec2.1, rec2.2.1, (c.chunk_number, done.2.1) :: rec2.2.2.1,
        rec2.2.2.2)

/-- `chunks_to_process` (csv_chunk_manager.py lines 413-419): with
`resume`, completed chunks are filtered out. -/
def chunksToProcess (resume : Bool) (records : List ChunkRecord) :
    List ChunkRecord :=
  if resume then records.filter (fun c => c.status != "completed")
  else records

/-- Reassembles the ledger after the run: the ORM mutates the selected
records in place, so the final ledger is the original list with each
processed (non-skipped) record replaced positionally by its updated
version. -/
def mergeProcessed (resume : Bool) :
    List ChunkRecord → List ChunkRecord → List ChunkRecord
  | [], _ => []
  | c :: rest, ps =>
    if resume && c.status == "completed" then
      c :: mergeProcessed resume rest ps
    else
      match ps with
      | [] => c :: mergeProcessed resume rest []
      | p :: ps2 => p :: mergeProcessed resume rest ps2

/-- The initial `results` dictionary of `import_chunked`
(csv_chunk_manager.py lines 422-434): all counters zero except
`total_chunks` and, in resume mode, `skipped_chunks` (the number of
already-completed chunks filtered out of `chunks_to_process`). -/
def initImportResult (records : List ChunkRecord) (import_method : String)
    (resume : Bool) : ImportResult :=
  { total_chunks := records.length, processed_chunks := 0
    successful_chunks := 0, failed_chunks := 0
    skipped_chunks :=
      if resume then records.length - (chunksToProcess resume records).length
      else 0
    total_rows_imported := 0, total_rows_skipped := 0
    import_method := import_method, errors := [] }

/-- `CSVChunkManager.import_chunked` (csv_chunk_manager.py lines 361-540)
over the ledger records of one `(table_name, dataset_date)`: raises
`ValueError` when no chunks exist; otherwise filters the chunks to
process, runs them sequentially, and returns the updated ledger, the
aggregate results dictionary, and the per-chunk attempt counts. -/
def import_chunked (records : List ChunkRecord) (import_method : String)
    (resume : Bool) (max_retries : Nat) (fileExists : Nat → Bool)
    (importer : Nat → Nat → Except String Nat) :
    Except String (List ChunkRecord × ImportResult × List (Nat × Nat)) :=
  if records.isEmpty then
    Except.error "No chunks found. Run chunk_csv() first."
  else
    let toProcess := chunksToProcess resume records
    let res0 := initImportResult records import_method resume
    let out := processChunks fileExists importer import_method max_retries
      toProcess res0 0
    Except.ok (mergeProcessed resume records out.1, out.2.1, out.2.2.1)

theorem attemptLoop_preserves (importer : Nat → Nat → Except String Nat)
    (import_method : String) (max_retries : Nat) :
    ∀ (fuel attempt : Nat) (c : ChunkRecord) (t : Nat),
      (attemptLoop importer import_method max_retries fuel attempt c t).1.chunk_number
          = c.chunk_number ∧
      (attemptLoop importer import_method max_retries fuel attempt c t).1.chunk_filename
          = c.chunk_filename ∧
      (attemptLoop importer import_method max_retries fuel attempt c t).1.chunk_start_row
          = c.chunk_start_row ∧
      (attemptLoop importer import_method max_retries fuel attempt c t).1.chunk_end_row
          = c.chunk_end_row ∧
      (attemptLoop importer import_method max_retries fuel attempt c t).1.chunk_row_count
          = c.chunk_row_count ∧
      (attemptLoop importer import_method max_retries fuel attempt c t).1.rows_skipped
          = c.rows_skipped := by
  intro fuel
  induction fuel with
  | zero =>
    intro attempt c t
    exact ⟨rfl, rfl, rfl, rfl, rfl, rfl⟩
  | succ fuel ih =>
    intro attempt c t
    simp only [attemptLoop]
    cases himp : importer c.chunk_number attempt with
    | ok rows => exact ⟨rfl, rfl, rfl, rfl, rfl, rfl⟩
    | error e =>
      by_cases hlast : (attempt == max_retries - 1) = true
      · simp [hlast]
      · simp only [hlast, Bool.false_eq_true, if_false]
        exact ih (attempt + 1)
          { c with status := "processing", started_at := some t
                   import_method := some import_method, retry_count := attempt }
          (t + 2)

theorem attemptLoop_fails (importer : Nat → Nat → Except String Nat)
    (import_method : String) (max_retries : Nat) (m : Nat)
    (hfail : ∀ k, ∃ e, importer m k = Except.error e) :
    ∀ (fuel attempt : Nat) (c : ChunkRecord) (t : Nat),
      c.chunk_number = m → fuel + attempt = max_retries → 1 ≤ fuel →
      (attemptLoop importer import_method max_retries fuel attempt c t).2.1
          = max_retries ∧
      (attemptLoop importer import_method max_retries fuel attempt c t).1.status
          = "failed" ∧
      (attemptLoop importer import_method max_retries fuel attempt c t).1.error_message.isSome
          = true ∧
      (∃ msg,
        (attemptLoop importer import_method max_retries fuel attempt c t).2.2.1
          = AttemptOutcome.failedFinal msg) := by
  intro fuel
  induction fuel with
  | zero =>
    intro attempt c t _ _ hge
    omega
  | succ fuel ih =>
    intro attempt c t hm hsum hge
    obtain ⟨e, he⟩ := hfail attempt
    have he2 : importer c.chunk_number attempt = Except.error e := by
      rw [hm]
      exact he
    simp only [attemptLoop, he2]
    rcases Nat.eq_zero_or_pos fuel with hf0 | hf1
    · have hlast : (attempt == max_retries - 1) = true := by
        rw [beq_iff_eq]
        omega
      rw [if_pos hlast]
      refine ⟨?_, rfl, rfl, ⟨truncate500 e, rfl⟩⟩
      show attempt + 1 = max_retries
      omega
    · have hlast : (attempt == max_retries - 1) = false := by
        rw [beq_eq_false_iff_ne]
        omega
      simp only [hlast, Bool.false_eq_true, if_false]
      exact ih (attempt + 1)
        { c with status := "processing", started_at := some t
                 import_method := some import_method, retry_count := attempt }
        (t + 2) hm (by omega) hf1

theorem attemptLoop_attempts_ge_start (importer : Nat → Nat → Except String Nat)
    (import_method : String) (max_retries : Nat) :
    ∀ (fuel attempt : Nat) (c : ChunkRecord) (t : Nat),
      attempt ≤ (attemptLoop importer import_method max_retries fuel attempt c t).2.1 := by
  intro fuel
  induction fuel with
  | zero => intro attempt c t; exact Nat.le_refl attempt
  | succ fuel ih =>
    intro attempt c t
    simp only [attemptLoop]
    cases himp : importer c.chunk_number attempt with
    | ok rows => exact Nat.le_succ attempt
    | error e =>
      by_cases hlast : (attempt == max_retries - 1) = true
      · simp only [hlast, if_true]
        exact Nat.le_succ attempt
      · simp only [hlast, Bool.false_eq_true, if_false]
        have := ih (attempt + 1)
          { c with status := "processing", started_at := some t
                   import_method := some import_method, retry_count := attempt }
          (t + 1 + 1)
        omega

theorem attemptLoop_attempts_ge_one (importer : Nat → Nat → Except String Nat)
    (import_method : String) (max_retries fuel : Nat) (c : ChunkRecord)
    (t : Nat) (hge : 1 ≤ fuel) :
    1 ≤ (attemptLoop importer import_method max_retries fuel 0 c t).2.1 := by
  cases fuel with
  | zero => omega
  | succ fuel =>
    simp only [attemptLoop]
    cases himp : importer c.chunk_number 0 with
    | ok rows => exact Nat.le_refl 1
    | error e =>
      by_cases hlast : ((0 : Nat) == max_retries - 1) = true
      · simp only [hlast, if_true]
        exact Nat.le_refl 1
      · simp only [hlast, Bool.false_eq_true, if_false]
        have := attemptLoop_attempts_ge_start importer import_method max_retries
          fuel (0 + 1)
          { c with status := "processing", started_at := some t
                   import_method := some import_method, retry_count := 0 }
          (t + 1 + 1)
        omega

theorem processChunks_shape (fileExists : Nat → Bool)
    (importer : Nat → Nat → Except String Nat) (import_method : String)
    (max_retries : Nat) :
    ∀ (l : List ChunkRecord) (res : ImportResult) (t : Nat),
      (processChunks fileExists importer import_method max_retries l res t).1.map
          (fun c => c.chunk_number) = l.map (fun c => c.chunk_number) ∧
      (processChunks fileExists importer import_method max_retries l res t).1.map
          (fun c => c.rows_skipped) = l.map (fun c => c.rows_skipped) ∧
      (processChunks fileExists importer import_method max_retries l res t).2.2.1.map
          Prod.fst = l.map (fun c => c.chunk_number) ∧
      (processChunks fileExists importer import_method max_retries l res t).2.1.total_rows_skipped
          = res.total_rows_skipped := by
  intro l
  induction l with
  | nil => intro res t; exact ⟨rfl, rfl, rfl, rfl⟩
  | cons c rest ih =>
    intro res t
    simp only [processChunks]
    by_cases hfe : fileExists c.chunk_number = false
    · rw [if_pos hfe]
      obtain ⟨ih1, ih2, ih3, ih4⟩ := ih _ _
      exact ⟨by simpa using ih1, by simpa using ih2, by simpa using ih3,
        by simpa using ih4⟩
    · rw [if_neg hfe]
      obtain ⟨ih1, ih2, ih3, ih4⟩ := ih _ _
      obtain ⟨hp1, _, _, _, _, hp6⟩ := attemptLoop_preserves importer
        import_method max_retries max_retries 0 c t
      refine ⟨by simpa [hp1] using ih1, by simpa [hp6] using ih2,
        by simpa using ih3, ?_⟩
      rw [ih4]
      cases houtcome : (attemptLoop importer import_method max_retries
          max_retries 0 c t).2.2.1 with
      | success rows => simp [houtcome]
      | failedFinal msg => simp [houtcome]
      | noAttempts => simp [houtcome]

theorem processChunks_processed (fileExists : Nat → Bool)
    (importer : Nat → Nat → Except String Nat) (import_method : String)
    (max_retries : Nat) :
    ∀ (l : List ChunkRecord) (res : ImportResult) (t : Nat),
      (∀ c ∈ l, fileExists c.chunk_number = true) →
      (processChunks fileExists importer import_method max_retries l res t).2.1.processed_chunks
        = res.processed_chunks + l.length := by
  intro l
  induction l with
  | nil => intro res t _; simp [processChunks]
  | cons c rest ih =>
    intro res t hfiles
    have hfe : ¬fileExists c.chunk_number = false := by
      rw [hfiles c (List.mem_cons_self c rest)]
      simp
    simp only [processChunks]
    rw [if_neg hfe]
    rw [ih _ _ (fun b hb => hfiles b (List.mem_cons_of_mem c hb))]
    have hres2 : ∀ (res1 : ImportResult),
        ({ res1 with processed_chunks := res1.processed_chunks + 1 } :
          ImportResult).processed_chunks = res1.processed_chunks + 1 :=
      fun _ => rfl
    cases houtcome : (attemptLoop importer import_method max_retries
        max_retries 0 c t).2.2.1 with
    | success rows => simp [houtcome, List.length_cons]; omega
    | failedFinal msg => simp [houtcome, List.length_cons]; omega
    | noAttempts => simp [houtcome, List.length_cons]; omega

theorem processChunks_fail_chunk (fileExists : Nat → Bool)
    (importer : Nat → Nat → Except String Nat) (import_method : String)
    (max_retries : Nat) (m : Nat)
    (hfail : ∀ k, ∃ e, importer m k = Except.error e)
    (hmr : 1 ≤ max_retries) :
    ∀ (l : List ChunkRecord) (res : ImportResult) (t : Nat),
      (∀ c ∈ l, fileExists c.chunk_number = true) →
      (∀ x ∈ (processChunks fileExists importer import_method max_retries l res t).1,
        x.chunk_number = m →
        x.status = "failed" ∧ x.error_message.isSome = true) ∧
      (∀ p ∈ (processChunks fileExists importer import_method max_retries l res t).2.2.1,
        p.1 = m → p.2 = max_retries) ∧
      (∀ p ∈ (processChunks fileExists importer import_method max_retries l res t).2.2.1,
        1 ≤ p.2) := by
  intro l
  induction l with
  | nil =>
    intro res t _
    refine ⟨?_, ?_, ?_⟩ <;> intro x hx <;> cases hx
  | cons c rest ih =>
    intro res t hfiles
    have hfe : ¬fileExists c.chunk_number = false := by
      rw [hfiles c (List.mem_cons_self c rest)]
      simp
    simp only [processChunks]
    rw [if_neg hfe]
    obtain ⟨ih1, ih2, ih3⟩ := ih _ _
      (fun b hb => hfiles b (List.mem_cons_of_mem c hb))
    obtain ⟨hp1, _, _, _, _, _⟩ := attemptLoop_preserves importer
      import_method max_retries max_retries 0 c t
    refine ⟨?_, ?_, ?_⟩
    · intro x hx hxm
      rcases List.mem_cons.mp hx with heq | hmem
      · subst heq
        have hcm : c.chunk_number = m := by rw [← hp1]; exact hxm
        obtain ⟨_, hst, herr, _⟩ := attemptLoop_fails importer import_method
          max_retries m hfail max_retries 0 c t hcm (by omega) hmr
        exact ⟨hst, herr⟩
      · exact ih1 x hmem hxm
    · intro p hp hpm
      rcases List.mem_cons.mp hp with heq | hmem
      · subst heq
        have hcm : c.chunk_number = m := hpm
        obtain ⟨hatt, _, _, _⟩ := attemptLoop_fails importer import_method
          max_retries m hfail max_retries 0 c t hcm (by omega) hmr
        exact hatt
      · exact ih2 p hmem hpm
    · intro p hp
      rcases List.mem_cons.mp hp with heq | hmem
      · subst heq
        exact attemptLoop_attempts_ge_one importer import_method max_retries
          max_retries c t hmr
      · exact ih3 p hmem

theorem mergeProcessed_length (resume : Bool) :
    ∀ (recs ps : List ChunkRecord),
      (mergeProcessed resume recs ps).length = recs.length := by
  intro recs
  induction recs with
  | nil => intro ps; rfl
  | cons c rest ih =>
    intro ps
    simp only [mergeProcessed]
    by_cases hc : (resume && c.status == "completed") = true
    · rw [if_pos hc]
      simp [ih]
    · rw [if_neg hc]
      cases ps with
      | nil => simp [ih]
      | cons p ps2 => simp [ih]

theorem mergeProcessed_completed_get (resume : Bool) (hres : resume = true) :
    ∀ (recs ps : List ChunkRecord) (i : Nat) (h : i < recs.length)
      (h2 : i < (mergeProcessed resume recs ps).length),
      (recs.get ⟨i, h⟩).status = "completed" →
      (mergeProcessed resume recs ps).get ⟨i, h2⟩ = recs.get ⟨i, h⟩ := by
  intro recs
  induction recs with
  | nil => intro ps i h; simp at h
  | cons c rest ih =>
    intro ps i h h2 hst
    cases i with
    | zero =>
      simp only [List.get] at hst ⊢
      have hc : (resume && c.status == "completed") = true := by
        rw [hres, hst]
        simp
      revert h2
      simp only [mergeProcessed]
      rw [if_pos hc]
      intro h2
      rfl
    | succ i =>
      simp only [List.get] at hst ⊢
      revert h2
      simp only [mergeProcessed]
      by_cases hc : (resume && c.status == "completed") = true
      · rw [if_pos hc]
        intro h2
        exact ih ps i (by simpa using h) (by simpa [mergeProcessed_length] using h2) hst
      · rw [if_neg hc]
        cases ps with
        | nil =>
          intro h2
          exact ih [] i (by simpa using h) (by simpa [mergeProcessed_length] using h2) hst
        | cons p ps2 =>
          intro h2
          exact ih ps2 i (by simpa using h) (by simpa [mergeProcessed_length] using h2) hst

theorem chunksToProcess_cons_skip (resume : Bool) (c : ChunkRecord)
    (rest : List ChunkRecord) (hc : (resume && c.status == "completed") = true) :
    chunksToProcess resume (c :: rest) = chunksToProcess resume rest := by
  have hr : resume = true := by
    cases hb : resume
    · rw [hb] at hc; simp at hc
    · rfl
  have hst : (c.status == "completed") = true := by
    rw [hr] at hc; simpa using hc
  simp only [chunksToProcess, hr, if_true, List.filter_cons]
  have : (c.status != "completed") = false := by
    simp only [bne, hst, Bool.not_true]
  simp [this]

theorem chunksToProcess_cons_keep (resume : Bool) (c : ChunkRecord)
    (rest : List ChunkRecord) (hc : (resume && c.status == "completed") = false) :
    chunksToProcess resume (c :: rest) = c :: chunksToProcess resume rest := by
  cases hb : resume
  · simp [chunksToProcess]
  · have hst : (c.status == "completed") = false := by
      rw [hb] at hc; simpa using hc
    have hne : (c.status != "completed") = true := by
      simp only [bne, hst, Bool.not_false]
    simp [chunksToProcess, List.filter_cons, hne]

theorem mergeProcessed_mem (resume : Bool) :
    ∀ (recs ps : List ChunkRecord),
      ps.length = (chunksToProcess resume recs).length →
      ∀ x ∈ mergeProcessed resume recs ps,
        x ∈ ps ∨ (resume = true ∧ x ∈ recs ∧ x.status = "completed") := by
  intro recs
  induction recs with
  | nil => intro ps _ x hx; cases hx
  | cons c rest ih =>
    intro ps hlen x hx
    simp only [mergeProcessed] at hx
    by_cases hc : (resume && c.status == "completed") = true
    · rw [if_pos hc] at hx
      have hr : resume = true := by
        cases hb : resume
        · rw [hb] at hc; simp at hc
        · rfl
      have hst : c.status = "completed" := by
        rw [hr] at hc
        simpa using hc
      rcases List.mem_cons.mp hx with heq | hmem
      · subst heq
        exact Or.inr ⟨hr, List.mem_cons_self _ _, hst⟩
      · rw [chunksToProcess_cons_skip resume c rest hc] at hlen
        rcases ih ps hlen x hmem with h1 | ⟨h2a, h2b, h2c⟩
        · exact Or.inl h1
        · exact Or.inr ⟨h2a, List.mem_cons_of_mem c h2b, h2c⟩
    · have hc2 : (resume && c.status == "completed") = false := by
        cases hv : (resume && c.status == "completed")
        · rfl
        · exact absurd hv hc
      rw [if_neg hc] at hx
      rw [chunksToProcess_cons_keep resume c rest hc2] at hlen
      cases ps with
      | nil => simp at hlen
      | cons p ps2 =>
        rcases List.mem_cons.mp hx with heq | hmem
        · refine Or.inl ?_
          rw [heq]
          exact List.mem_cons_self _ _
        · have hlen2 : ps2.length = (chunksToProcess resume rest).length := by
            simpa using hlen
          rcases ih ps2 hlen2 x hmem with h1 | ⟨h2a, h2b, h2c⟩
          · exact Or.inl (List.mem_cons_of_mem p h1)
          · exact Or.inr ⟨h2a, List.mem_cons_of_mem c h2b, h2c⟩

theorem mergeProcessed_map {β : Type} (resume : Bool) (f : ChunkRecord → β) :
    ∀ (recs ps : List ChunkRecord),
      ps.map f = (chunksToProcess resume recs).map f →
      (mergeProcessed resume recs ps).map f = recs.map f := by
  intro recs
  induction recs with
  | nil => intro ps _; rfl
  | cons c rest ih =>
    intro ps hmap
    simp only [mergeProcessed]
    by_cases hc : (resume && c.status == "completed") = true
    · rw [if_pos hc]
      rw [chunksToProcess_cons_skip resume c rest hc] at hmap
      simp only [List.map_cons]
      rw [ih ps hmap]
    · have hc2 : (resume && c.status == "completed") = false := by
        cases hv : (resume && c.status == "completed")
        · rfl
        · exact absurd hv hc
      rw [if_neg hc]
      rw [chunksToProcess_cons_keep resume c rest hc2] at hmap
      cases ps with
      | nil => simp at hmap
      | cons p ps2 =>
        simp only [List.map_cons] at hmap ⊢
        injection hmap with hp hps2
        rw [hp, ih ps2 hps2]

theorem countStatus_filter_length :
    ∀ (recs : List ChunkRecord),
      (recs.filter (fun c => c.status != "completed")).length
        + countStatus recs "completed" = recs.length := by
  intro recs
  induction recs with
  | nil => rfl
  | cons c rest ih =>
    simp only [List.filter_cons, countStatus] at ih ⊢
    by_cases hc : (c.status == "completed") = true
    · have hne : (c.status != "completed") = false := by
        simp only [bne, hc, Bool.not_true]
      simp only [hne, Bool.false_eq_true, if_false, hc, if_true,
        List.length_cons]
      omega
    · have hc2 : (c.status == "completed") = false := by
        cases hv : (c.status == "completed")
        · rfl
        · exact absurd hv hc
      have hne : (c.status != "completed") = true := by
        simp only [bne, hc2, Bool.not_false]
      simp only [hne, if_true, hc2, Bool.false_eq_true, if_false,
        List.length_cons]
      omega

theorem processChunks_skipped (fileExists : Nat → Bool)
    (importer : Nat → Nat → Except String Nat) (import_method : String)
    (max_retries : Nat) :
    ∀ (l : List ChunkRecord) (res : ImportResult) (t : Nat),
      (processChunks fileExists importer import_method max_retries l res t).2.1.skipped_chunks
        = res.skipped_chunks := by
  intro l
  induction l with
  | nil => intro res t; rfl
  | cons c rest ih =>
    intro res t
    simp only [processChunks]
    by_cases hfe : fileExists c.chunk_number = false
    · rw [if_pos hfe]
      rw [ih]
    · rw [if_neg hfe]
      rw [ih]
      cases houtcome : (attemptLoop importer import_method max_retries
          max_retries 0 c t).2.2.1 with
      | success rows => simp [houtcome]
      | failedFinal msg => simp [houtcome]
      | noAttempts => simp [houtcome]

theorem mem_chunksToProcess (resume : Bool) (records : List ChunkRecord)
    (c0 : ChunkRecord) (hmem : c0 ∈ records) (hst : c0.status ≠ "completed") :
    c0 ∈ chunksToProcess resume records := by
  cases hb : resume
  · simpa [chunksToProcess] using hmem
  · simp only [chunksToProcess, if_true]
    refine List.mem_filter.mpr ⟨hmem, ?_⟩
    simpa [bne_iff_ne] using hst

/-- **C5**: with `resume=true`, a job of `N` chunk records of which `K`
are completed processes exactly `N - K` chunks (the completed ones are
reported as skipped, not processed), and every ledger field of each of
the `K` completed records is unchanged after the call.  All non-completed
chunks' backing files are assumed present (a missing file makes the code
handle that chunk outside the `processed_chunks` counter). -/
theorem import_chunked_resume_spec (records : List ChunkRecord)
    (import_method : String) (max_retries : Nat) (fileExists : Nat → Bool)
    (importer : Nat → Nat → Except String Nat)
    (hne : records ≠ [])
    (hfiles : ∀ c ∈ records, c.status ≠ "completed" →
      fileExists c.chunk_number = true) :
    ∃ final res atts,
      import_chunked records import_method true max_retries fileExists
          importer = Except.ok (final, res, atts) ∧
      res.processed_chunks
        = records.length - countStatus records "completed" ∧
      res.skipped_chunks = countStatus records "completed" ∧
      final.length = records.length ∧
      ∀ (i : Nat) (h : i < records.length) (h2 : i < final.length),
        (records.get ⟨i, h⟩).status = "completed" →
        final.get ⟨i, h2⟩ = records.get ⟨i, h⟩ := by
  have hemp : records.isEmpty = false := by
    cases records with
    | nil => exact absurd rfl hne
    | cons a l => rfl
  have hfiles2 : ∀ c ∈ chunksToProcess true records,
      fileExists c.chunk_number = true := by
    intro c hc
    simp only [chunksToProcess, if_true] at hc
    obtain ⟨hcm, hcs⟩ := List.mem_filter.mp hc
    exact hfiles c hcm (by simpa [bne_iff_ne] using hcs)
  have hcount := countStatus_filter_length records
  have hproc := processChunks_processed fileExists importer import_method
    max_retries (chunksToProcess true records)
    (initImportResult records import_method true) 0 hfiles2
  have hskip := processChunks_skipped fileExists importer import_method
    max_retries (chunksToProcess true records)
    (initImportResult records import_method true) 0
  have hlen : (chunksToProcess true records).length
      = records.length - countStatus records "completed" := by
    simp only [chunksToProcess, if_true]
    omega
  simp only [import_chunked, hemp, Bool.false_eq_true, if_false]
  refine ⟨_, _, _, rfl, ?_, ?_, ?_, ?_⟩
  · rw [hproc, hlen]
    simp only [initImportResult]
    omega
  · rw [hskip]
    simp only [initImportResult, if_true, hlen]
    omega
  · exact mergeProcessed_length true records _
  · intro i h h2 hst
    exact mergeProcessed_completed_get true rfl records _ i h h2 hst

/-- **C2**: a chunk whose per-attempt import raises on every attempt is
attempted exactly `max_retries` times by the retry loop, its ledger
record ends in status `failed` with a non-null `error_message`, and every
other selected chunk of the run is still attempted at least once and the
whole run completes — a chunk failure never aborts the run.  (The spec's
"retried exactly maxRetries times" is the code's `for attempt in
range(max_retries)` attempt counter.) -/
theorem import_chunked_retry_exhaustion (records : List ChunkRecord)
    (import_method : String) (resume : Bool) (max_retries : Nat)
    (fileExists : Nat → Bool) (importer : Nat → Nat → Except String Nat)
    (c0 : ChunkRecord)
    (hne : records ≠ [])
    (hmem : c0 ∈ records) (hst : c0.status ≠ "completed")
    (hnodup : (records.map (fun c => c.chunk_number)).Nodup)
    (hfiles : ∀ c ∈ chunksToProcess resume records,
      fileExists c.chunk_number = true)
    (hmr : 1 ≤ max_retries)
    (hfail : ∀ k, ∃ e, importer c0.chunk_number k = Except.error e) :
    ∃ final res atts,
      import_chunked records import_method resume max_retries fileExists
          importer = Except.ok (final, res, atts) ∧
      (∃ p ∈ atts, p.1 = c0.chunk_number) ∧
      (∀ p ∈ atts, p.1 = c0.chunk_number → p.2 = max_retries) ∧
      (∀ x ∈ final, x.chunk_number = c0.chunk_number →
        x.status = "failed" ∧ x.error_message.isSome = true) ∧
      (∃ x ∈ final, x.chunk_number = c0.chunk_number) ∧
      (∀ p ∈ atts, 1 ≤ p.2) ∧
      atts.length = (chunksToProcess resume records).length ∧
      res.processed_chunks = (chunksToProcess resume records).length := by
  have hemp : records.isEmpty = false := by
    cases records with
    | nil => exact absurd rfl hne
    | cons a l => rfl
  have hmem2 : c0 ∈ chunksToProcess resume records :=
    mem_chunksToProcess resume records c0 hmem hst
  obtain ⟨hsh1, hsh2, hsh3, hsh4⟩ := processChunks_shape fileExists importer
    import_method max_retries (chunksToProcess resume records)
    (initImportResult records import_method resume) 0
  obtain ⟨hf1, hf2, hf3⟩ := processChunks_fail_chunk fileExists importer
    import_method max_retries c0.chunk_number hfail hmr
    (chunksToProcess resume records)
    (initImportResult records import_method resume) 0 hfiles
  have hproc := processChunks_processed fileExists importer import_method
    max_retries (chunksToProcess resume records)
    (initImportResult records import_method resume) 0 hfiles
  have hpslen : (processChunks fileExists importer import_method max_retries
      (chunksToProcess resume records)
      (initImportResult records import_method resume) 0).1.length
      = (chunksToProcess resume records).length := by
    have := congrArg List.length hsh1
    simpa using this
  have hmergemap := mergeProcessed_map resume (fun c => c.chunk_number)
    records _ hsh1
  simp only [import_chunked, hemp, Bool.false_eq_true, if_false]
  refine ⟨_, _, _, rfl, ?_, ?_, ?_, ?_, ?_, ?_, ?_⟩
  · have : c0.chunk_number ∈ (chunksToProcess resume records).map
        (fun c => c.chunk_number) := List.mem_map_of_mem _ hmem2
    rw [← hsh3] at this
    obtain ⟨p, hp, hpeq⟩ := List.mem_map.mp this
    exact ⟨p, hp, hpeq⟩
  · exact hf2
  · intro x hx hxn
    rcases mergeProcessed_mem resume records _
        (by rw [← hpslen]) x hx with h1 | ⟨h2a, h2b, h2c⟩
    · exact hf1 x h1 hxn
    · have : x = c0 := List.inj_on_of_nodup_map hnodup h2b hmem hxn
      rw [this] at h2c
      exact absurd h2c hst
  · have : c0.chunk_number ∈ (mergeProcessed resume records
        (processChunks fileExists importer import_method max_retries
          (chunksToProcess resume records)
          (initImportResult records import_method resume) 0).1).map
        (fun c => c.chunk_number) := by
      rw [hmergemap]
      exact List.mem_map_of_mem _ hmem
    obtain ⟨x, hx, hxeq⟩ := List.mem_map.mp this
    exact ⟨x, hx, hxeq⟩
  · exact hf3
  · have := congrArg List.length hsh3
    simpa using this
  · rw [hproc]
    simp [initImportResult]

/-- **C10**: `import_chunked` reports `total_rows_skipped = 0` and leaves
every record's `rows_skipped` field untouched, no matter what the
underlying importer did: per-row skip counts live only inside the
importer and are never propagated into the aggregate result or the
ledger. -/
theorem import_chunked_never_reports_skipped_rows
    (records : List ChunkRecord) (import_method : String) (resume : Bool)
    (max_retries : Nat) (fileExists : Nat → Bool)
    (importer : Nat → Nat → Except String Nat)
    (final : List ChunkRecord) (res : ImportResult)
    (atts : List (Nat × Nat))
    (h : import_chunked records import_method resume max_retries fileExists
      importer = Except.ok (final, res, atts)) :
    res.total_rows_skipped = 0 ∧
    final.map (fun c => c.rows_skipped)
      = records.map (fun c => c.rows_skipped) := by
  by_cases hemp : records.isEmpty
  · exact absurd h (by simp [import_chunked, hemp])
  · have hemp2 : records.isEmpty = false := by
      cases hv : records.isEmpty
      · rfl
      · exact absurd hv hemp
    obtain ⟨hsh1, hsh2, hsh3, hsh4⟩ := processChunks_shape fileExists importer
      import_method max_retries (chunksToProcess resume records)
      (initImportResult records import_method resume) 0
    have hmergemap := mergeProcessed_map resume (fun c => c.rows_skipped)
      records _ hsh2
    simp only [import_chunked, hemp2, Bool.false_eq_true, if_false,
      Except.ok.injEq, Prod.mk.injEq] at h
    obtain ⟨hfin, hres, _⟩ := h
    constructor
    · rw [← hres, hsh4]
      rfl
    · rw [← hfin, hmergemap]

/-- A concrete pending ledger record (chunk 3), used as test input. -/
def pendingChunk : ChunkRecord :=
  { chunk_number := 3, chunk_filename := "opinions-2025-01-01.chunk_0003.csv"
    chunk_start_row := 21, chunk_end_row := 30, chunk_row_count := 10
    status := "pending", rows_imported := some 0, rows_skipped := some 0
    started_at := none, completed_at := none, duration_seconds := none
    error_message := none, retry_count := 0, import_method := none }

/-- A concrete completed ledger record (chunk 4), used as test input. -/
def completedChunk : ChunkRecord :=
  { pendingChunk with chunk_number := 4, status := "completed"
                      rows_imported := some 10 }

/-- A second pending ledger record (chunk 5), used as test input. -/
def pendingChunk5 : ChunkRecord :=
  { pendingChunk with chunk_number := 5, chunk_start_row := 31
                      chunk_end_row := 40 }

/-- Witness for C5: one completed and one pending chunk, resume mode —
exactly one chunk is processed, one reported skipped, and the completed
record is untouched. -/
theorem import_chunked_resume_spec_witness :
    ∃ final res atts,
      import_chunked [completedChunk, pendingChunk] "standard" true 3
          (fun _ => true) (fun _ _ => Except.ok 9)
        = Except.ok (final, res, atts) ∧
      res.processed_chunks
        = [completedChunk, pendingChunk].length
          - countStatus [completedChunk, pendingChunk] "completed" ∧
      res.skipped_chunks = countStatus [completedChunk, pendingChunk] "completed" ∧
      final.length = [completedChunk, pendingChunk].length ∧
      ∀ (i : Nat) (h : i < [completedChunk, pendingChunk].length)
        (h2 : i < final.length),
        ([completedChunk, pendingChunk].get ⟨i, h⟩).status = "completed" →
        final.get ⟨i, h2⟩ = [completedChunk, pendingChunk].get ⟨i, h⟩ :=
  import_chunked_resume_spec [completedChunk, pendingChunk] "standard" 3
    (fun _ => true) (fun _ _ => Except.ok 9) (List.cons_ne_nil _ _)
    (fun _ _ _ => rfl)

/-- The importer oracle of the C2 scenario: chunk 3 always raises, every
other chunk succeeds with 7 rows. -/
def failingImporter : Nat → Nat → Except String Nat :=
  fun n _ => if n == 3 then Except.error "boom" else Except.ok 7

/-- Witness for C2: chunk 3 always fails and is attempted exactly 3 times
(`max_retries = 3`), ends failed with an error message, and chunk 5 is
still attempted. -/
theorem import_chunked_retry_exhaustion_witness :
    ∃ final res atts,
      import_chunked [pendingChunk, pendingChunk5] "standard" true 3
          (fun _ => true) failingImporter
        = Except.ok (final, res, atts) ∧
      (∃ p ∈ atts, p.1 = pendingChunk.chunk_number) ∧
      (∀ p ∈ atts, p.1 = pendingChunk.chunk_number → p.2 = 3) ∧
      (∀ x ∈ final, x.chunk_number = pendingChunk.chunk_number →
        x.status = "failed" ∧ x.error_message.isSome = true) ∧
      (∃ x ∈ final, x.chunk_number = pendingChunk.chunk_number) ∧
      (∀ p ∈ atts, 1 ≤ p.2) ∧
      atts.length
        = (chunksToProcess true [pendingChunk, pendingChunk5]).length ∧
      res.processed_chunks
        = (chunksToProcess true [pendingChunk, pendingChunk5]).length :=
  import_chunked_retry_exhaustion [pendingChunk, pendingChunk5] "standard"
    true 3 (fun _ => true) failingImporter pendingChunk
    (List.cons_ne_nil _ _) (List.mem_cons_self _ _) (by decide)
    (by decide) (fun _ _ => rfl) (by decide)
    (fun k => ⟨"boom", rfl⟩)

/-- Witness for C10 at a concrete run: total_rows_skipped is 0 and the
record's rows_skipped is unchanged. -/
theorem import_chunked_never_reports_skipped_rows_witness :
    import_chunked [pendingChunk] "standard" false 1 (fun _ => true)
        (fun _ _ => Except.ok 5)
      = Except.ok
          ([{ pendingChunk with status := "completed"
                                rows_imported := some 5
                                started_at := some 0, completed_at := some 2
                                duration_seconds := some 1
                                import_method := some "standard" }],
           { total_chunks := 1, processed_chunks := 1, successful_chunks := 1
             failed_chunks := 0, skipped_chunks := 0, total_rows_imported := 5
             total_rows_skipped := 0, import_method := "standard"
             errors := [] },
           ([(3, 1)] : List (Nat × Nat))) ∧
    ({ total_chunks := 1, processed_chunks := 1, successful_chunks := 1
       failed_chunks := 0, skipped_chunks := 0, total_rows_imported := 5
       total_rows_skipped := 0, import_method := "standard"
       errors := [] } : ImportResult).total_rows_skipped = 0 ∧
    ([{ pendingChunk with status := "completed", rows_imported := some 5
                          started_at := some 0, completed_at := some 2
                          duration_seconds := some 1
                          import_method := some "standard" }] :
        List ChunkRecord).map (fun c => c.rows_skipped)
      = [pendingChunk].map (fun c => c.rows_skipped) :=
  ⟨by decide,
   import_chunked_never_reports_skipped_rows [pendingChunk] "standard" false
     1 (fun _ => true) (fun _ _ => Except.ok 5)
     [{ pendingChunk with status := "completed", rows_imported := some 5
                          started_at := some 0, completed_at := some 2
                          duration_seconds := some 1
                          import_method := some "standard" }]
     { total_chunks := 1, processed_chunks := 1, successful_chunks := 1
       failed_chunks := 0, skipped_chunks := 0, total_rows_imported := 5
       total_rows_skipped := 0, import_method := "standard", errors := [] }
     [(3, 1)] (by decide)⟩

end Caselaw
